import Mathlib

/-
  Verification of the scraping/ingestion queue pipeline of the
  MedicaidReportAIMiner repository.

  The Python sources are shallowly embedded as executable Lean
  definitions:
  * `models.py`              → the record types below (`QueueItem`, `Report`,
                               `DuplicateCheck`) and the aggregate `DBState`;
  * `services/audit_search_service.py` → `checkDuplicate`, `addToQueue`,
                               `approveForProcessing`, `skipItems`;
  * `services/queue_processor.py`      → `getNextItem`, `processedItem`,
                               `processItem`, `createReport`;
  * `scraper/classifier.py`  → `classifyWithRetry`, `classifyBatch`;
  * `scraper/search.py`      → `search` and its pagination loop;
  * `routes.py` upload route and `utils/pdf_utils.py`
                             → `processUploadedFileMemory`, `uploadQueueItem`;
  * Python `bytes.hex` / `bytes.fromhex` → `bytesToHex` / `fromHex`.

  Machine bytes are `Nat < 256`; SHA-256 is kept abstract as a parameter
  `sha256 : List Nat → String` (the code only pipes hash values around and
  compares them for equality, it never inspects their structure).
  Database rows live in Lean lists; SQLAlchemy column defaults from
  `models.py` are applied where the Python constructor omits a field.
-/

namespace MedicaidMiner

/-- Lifecycle status of a `scraping_queue` row.  The string values come from
`models.py` (`ScrapingQueue.status`) and the two services that write them:
`pending_review, pending, downloading, processing, completed, failed,
duplicate, skipped`. -/
inductive Status where
  | pendingReview
  | pending
  | downloading
  | processing
  | completed
  | failed
  | duplicate
  | skipped
deriving DecidableEq, Repr

/-- The `ClassificationResult` dataclass from `scraper/classifiers/base.py`.
`to_dict` is a field-by-field copy, so the dict form stored in
`ai_classification` is represented by the same structure.  `confidence` is a
numeric literal that the code only stores and compares, never computes with,
so it is modelled as `Rat`. -/
structure ClassificationResult where
  is_medicaid_audit : Bool
  confidence : Rat
  document_type : String
  reasoning : String
  success : Bool := true
  error : Option String := none
  provider : Option String := none
deriving DecidableEq, Repr

/-- The `document_metadata` JSONB payload of a queue row.  Search results
store `{author, creation_date, subject, creator}`; manual uploads store
`{filename, file_size, file_hash, upload_source, original_filename,
file_content}` (`routes.py`); the processor additionally reads an optional
`ai_provider` key.  Absent keys are `none`. -/
structure DocMeta where
  author : Option String := none
  creation_date : Option String := none
  subject : Option String := none
  creator : Option String := none
  filename : Option String := none
  file_size : Option Nat := none
  file_hash : Option String := none
  upload_source : Option String := none
  original_filename : Option String := none
  file_content : Option (List Char) := none
  ai_provider : Option String := none
deriving DecidableEq, Repr

/-- The per-queue-row tagged classification payload stored in the
`ai_classification` JSONB column: produced by the AI classifier
(`classify_batch`), synthesized by the manual-upload route, or absent. -/
inductive AIClassification where
  | fromClassifier (c : ClassificationResult)
  | manualUpload (is_medicaid_audit : Bool) (confidence : Rat)
      (source : String) (reasoning : String)
  | absent
deriving DecidableEq, Repr

/-- A `scraping_queue` row (`models.py`, class `ScrapingQueue`). -/
structure QueueItem where
  id : Nat
  url : String
  title : String
  source_domain : String
  document_metadata : DocMeta
  ai_classification : AIClassification
  status : Status
  retry_count : Nat
  created_at : Nat
  completed_at : Option Nat
  error_message : Option String
  report_id : Option Nat
  user_override : Bool
deriving DecidableEq, Repr

/-- A `reports` row (`models.py`, class `Report`).  `file_hash` is declared
`nullable=False, unique=True` in the schema, hence a plain `String` here.
The child tables (`findings`, `recommendations`, `objectives`, the keyword
association) are inlined as list-valued fields, which is faithful for the
claims under study since the code only ever writes them together with the
report inside one transaction. -/
structure Report where
  id : Nat
  report_title : String
  audit_organization : String
  publication_year : Nat
  publication_month : Nat
  publication_day : Option Nat
  original_report_source_url : String
  state : Option String
  audit_scope : Option String
  original_filename : String
  file_hash : String
  file_size_bytes : Nat
  status : String
  processing_status : String
  findings : List String
  recommendations : List String
  objectives : List String
  keywords : List String
deriving DecidableEq, Repr

/-- A `duplicate_checks` row (`models.py`, class `DuplicateCheck`). -/
structure DuplicateCheck where
  queue_item_id : Nat
  existing_report_id : Nat
  similarity_score : Option Rat := none
deriving DecidableEq, Repr

/-- The structured extraction result handed back by the AI-extraction
collaborator (`utils/ai_extraction.py`, consumed in
`QueueProcessor._create_report`). -/
structure ReportData where
  report_title : String
  audit_organization : String
  publication_year : Nat
  publication_month : Nat
  publication_day : Option Nat
  overall_conclusion : Option String
  llm_insight : Option String
  potential_objective_summary : Option String
  state : Option String
  audit_scope : Option String
  findings : List String
  recommendations : List String
  objectives : List String
  extracted_keywords : List String
deriving DecidableEq, Repr

/-- Token/cost log produced by the extraction collaborator and persisted as
an `ai_processing_logs` row; opaque data for the claims at hand. -/
structure AILog where
  model_name : String
  total_tokens : Nat
  extraction_status : String
deriving DecidableEq, Repr

/-- The mutable database state the two services coordinate through: the
queue table, the reports table, the duplicate-check audit table, plus a
counter of background-processing spawns (`_start_background_processing`
invocations) and fresh primary keys. -/
structure DBState where
  queue : List QueueItem
  reports : List Report
  dup_checks : List DuplicateCheck
  bg_starts : Nat
  next_queue_id : Nat
  next_report_id : Nat
deriving DecidableEq, Repr

/-- The empty database. -/
def DBState.empty : DBState :=
  { queue := [], reports := [], dup_checks := [], bg_starts := 0,
    next_queue_id := 1, next_report_id := 1 }

/-! ### Python `bytes.hex` / `bytes.fromhex`

`routes.py` stores uploaded file bytes as `file_content.hex()` and
`queue_processor.py` recovers them with `bytes.fromhex(...)`.  Bytes are
naturals below 256; hex strings are lists of characters. -/

/-- Lowercase hex digit for a value below 16 (as produced by Python
`bytes.hex`). -/
def hexDigitChar (n : Nat) : Char :=
  if n < 10 then Char.ofNat (48 + n) else Char.ofNat (87 + n)

/-- The two-character lowercase hex rendering of one byte. -/
def byteToHex (b : Nat) : List Char :=
  [hexDigitChar (b / 16), hexDigitChar (b % 16)]

/-- Python `bytes.hex()`: concatenation of the two-digit renderings. -/
def bytesToHex (bs : List Nat) : List Char :=
  (bs.map byteToHex).flatten

/-- Numeric value of one hex digit, accepting the lowercase, uppercase and
decimal ranges exactly as Python `bytes.fromhex` does; `none` on any other
character. -/
def hexVal (c : Char) : Option Nat :=
  if 48 ≤ c.toNat ∧ c.toNat ≤ 57 then some (c.toNat - 48)
  else if 97 ≤ c.toNat ∧ c.toNat ≤ 102 then some (c.toNat - 87)
  else if 65 ≤ c.toNat ∧ c.toNat ≤ 70 then some (c.toNat - 55)
  else none

/-- Python `bytes.fromhex` on a string with no interspersed whitespace:
consume digit pairs; fail (`ValueError`, modelled by `none`) on a dangling
digit or a non-hex character. -/
def fromHex : List Char → Option (List Nat)
  | [] => some []
  | [_] => none
  | c1 :: c2 :: rest =>
    match hexVal c1, hexVal c2, fromHex rest with
    | some h, some l, some tail => some ((16 * h + l) :: tail)
    | _, _, _ => none

theorem hexVal_hexDigitChar {n : Nat} (h : n < 16) :
    hexVal (hexDigitChar n) = some n := by
  interval_cases n <;> decide

theorem fromHex_bytesToHex {bs : List Nat} (h : ∀ b ∈ bs, b < 256) :
    fromHex (bytesToHex bs) = some bs := by
  induction bs with
  | nil => rfl
  | cons b rest ih =>
    have hb : b < 256 := h b (List.mem_cons_self b rest)
    have hdiv : b / 16 < 16 := by
      apply Nat.div_lt_of_lt_mul
      omega
    have hmod : b % 16 < 16 := Nat.mod_lt _ (by omega)
    have hrest : ∀ x ∈ rest, x < 256 := fun x hx => h x (List.mem_cons_of_mem _ hx)
    have hcomb : 16 * (b / 16) + b % 16 = b := Nat.div_add_mod b 16
    simp only [bytesToHex, List.map_cons, List.flatten, byteToHex, List.cons_append,
      List.append_eq, List.nil_append] at *
    simp only [fromHex, hexVal_hexDigitChar hdiv, hexVal_hexDigitChar hmod, ih hrest, hcomb]

/-! ### `services/audit_search_service.py` -/

/-- The non-terminal statuses listed in `AuditSearchService._check_duplicate`:
`['pending_review', 'pending', 'downloading', 'processing']`. -/
def inflightStatus (st : Status) : Bool :=
  st == Status.pendingReview || st == Status.pending ||
    st == Status.downloading || st == Status.processing

/-- Embedding of `AuditSearchService._check_duplicate`: the URL is a duplicate when it
matches an existing report's `original_report_source_url` or a queue row in
one of the four in-flight statuses. -/
def checkDuplicate (s : DBState) (url : String) : Bool :=
  s.reports.any (fun r => r.original_report_source_url == url) ||
    s.queue.any (fun q => q.url == url && inflightStatus q.status)

/-- Payload shape returned by `AuditSearchService._get_duplicate_info`. -/
structure DuplicateInfo where
  id : Nat
  title : String
  year : Nat
  month : Nat
deriving DecidableEq, Repr

/-- Embedding of `AuditSearchService._get_duplicate_info`. -/
def getDuplicateInfo (s : DBState) (url : String) : Option DuplicateInfo :=
  match s.reports.find? (fun r => r.original_report_source_url == url) with
  | some r => some { id := r.id, title := r.report_title,
                     year := r.publication_year, month := r.publication_month }
  | none => none

/-- One discovered-and-classified candidate as passed to
`AuditSearchService.add_to_queue` (a search-result dict that
`classify_batch` enriched with an `ai_classification` entry). -/
structure ClassifiedItem where
  url : String
  title : String
  source : String
  metadata : DocMeta := {}
  ai_classification : ClassificationResult
  user_override : Bool := false
deriving DecidableEq, Repr

/-- Lookup in the `user_overrides` dict of `add_to_queue`. -/
def lookupOverride (ovs : List (String × Bool)) (url : String) : Option Bool :=
  (ovs.find? (fun p => p.1 == url)).map (fun p => p.2)

/-- The queue row `add_to_queue` builds for one non-duplicate candidate.
`ScrapingQueue(...)` is called without `status`, `retry_count`,
`completed_at` or `created_at`, so the column defaults of `models.py` apply:
`status='pending'`, `retry_count=0`, `completed_at` NULL, `created_at=now`. -/
def enqueuedItem (item : ClassifiedItem) (ovs : List (String × Bool))
    (qid now : Nat) : QueueItem :=
  let (cls, uo) :=
    match lookupOverride ovs item.url with
    | some v => ({ item.ai_classification with is_medicaid_audit := v }, true)
    | none => (item.ai_classification, item.user_override)
  { id := qid
    url := item.url
    title := item.title
    source_domain := item.source
    document_metadata := item.metadata
    ai_classification := AIClassification.fromClassifier cls
    status := Status.pending
    retry_count := 0
    created_at := now
    completed_at := none
    error_message := none
    report_id := none
    user_override := uo }

/-- Embedding of `AuditSearchService.add_to_queue`: per candidate, skip it when
`_check_duplicate` fires (against the state including rows added earlier in
the same call, which the session autoflush makes visible), otherwise insert
a new queue row and bump `added_count`.  The Python for-loop is rendered as
structural recursion over the candidate list. -/
def addToQueue (ovs : List (String × Bool)) (now : Nat) :
    DBState → List ClassifiedItem → DBState × Nat
  | s, [] => (s, 0)
  | s, item :: rest =>
    if checkDuplicate s item.url then addToQueue ovs now s rest
    else
      let s1 := { s with
        queue := s.queue ++ [enqueuedItem item ovs s.next_queue_id now]
        next_queue_id := s.next_queue_id + 1 }
      let res := addToQueue ovs now s1 rest
      (res.1, res.2 + 1)

/-- One iteration of `approve_for_processing`: find the first queue row with
this id *and* status `pending_review`; if found, set its status to
`pending`. -/
def approveOne (queue : List QueueItem) (i : Nat) : List QueueItem × Bool :=
  match queue with
  | [] => ([], false)
  | q :: rest =>
    if q.id == i && q.status == Status.pendingReview then
      ({ q with status := Status.pending } :: rest, true)
    else
      let (rest2, found) := approveOne rest i
      (q :: rest2, found)

/-- The loop of `approve_for_processing` over the id list, counting the rows
actually transitioned. -/
def approveList (queue : List QueueItem) : List Nat → List QueueItem × Nat
  | [] => (queue, 0)
  | i :: rest =>
    let (q1, found) := approveOne queue i
    let (q2, c) := approveList q1 rest
    (q2, (if found then 1 else 0) + c)

/-- Embedding of `AuditSearchService.approve_for_processing`: transition the listed
`pending_review` rows to `pending` and, when at least one transitioned,
spawn background processing exactly once (`_start_background_processing`,
counted by `bg_starts`). -/
def approveForProcessing (s : DBState) (ids : List Nat) : DBState × Nat :=
  let (q, c) := approveList s.queue ids
  let s1 := { s with queue := q }
  (if 0 < c then { s1 with bg_starts := s1.bg_starts + 1 } else s1, c)

/-- One iteration of `skip_items`: find the first queue row with this id and
status `pending_review`; mark it `skipped` and stamp `completed_at`. -/
def skipOne (now : Nat) (queue : List QueueItem) (i : Nat) :
    List QueueItem × Bool :=
  match queue with
  | [] => ([], false)
  | q :: rest =>
    if q.id == i && q.status == Status.pendingReview then
      ({ q with status := Status.skipped, completed_at := some now } :: rest, true)
    else
      let (rest2, found) := skipOne now rest i
      (q :: rest2, found)

/-- The loop of `skip_items` over the id list. -/
def skipList (now : Nat) (queue : List QueueItem) : List Nat → List QueueItem × Nat
  | [] => (queue, 0)
  | i :: rest =>
    let (q1, found) := skipOne now queue i
    let (q2, c) := skipList now q1 rest
    (q2, (if found then 1 else 0) + c)

/-- Embedding of `AuditSearchService.skip_items`. -/
def skipItems (s : DBState) (ids : List Nat) (now : Nat) : DBState × Nat :=
  let (q, c) := skipList now s.queue ids
  ({ s with queue := q }, c)

/-! ### Manual upload (`routes.py` `/upload` route, `utils/pdf_utils.py`) -/

/-- Embedding of `process_uploaded_file_memory` from `utils/pdf_utils.py`: returns the
(secure) filename, the byte length, the SHA-256 hex digest and the raw
bytes of the uploaded file. -/
def processUploadedFileMemory (sha256 : List Nat → String)
    (filename : String) (content : List Nat) : String × Nat × String × List Nat :=
  (filename, content.length, sha256 content, content)

/-- The queue row the `/upload` route builds for a non-duplicate uploaded
file: synthetic `upload://<hash>` URL, `source_domain='manual_upload'`,
the raw bytes hex-embedded in `document_metadata`, an explicit
`status='pending_review'` and `user_override=True`. -/
def uploadQueueItem (sha256 : List Nat → String) (origFilename filename : String)
    (content : List Nat) (qid now : Nat) : QueueItem :=
  let fileHash := sha256 content
  { id := qid
    url := "upload://" ++ fileHash
    title := filename
    source_domain := "manual_upload"
    document_metadata :=
      { filename := some filename
        file_size := some content.length
        file_hash := some fileHash
        upload_source := some ("manual_upload")
        original_filename := some origFilename
        file_content := some (bytesToHex content) }
    ai_classification :=
      AIClassification.manualUpload true 1 ("manual_upload")
        ("File manually uploaded by user")
    status := Status.pendingReview
    retry_count := 0
    created_at := now
    completed_at := none
    error_message := none
    report_id := none
    user_override := true }

/-! ### `services/queue_processor.py` -/

/-- The external collaborators `_process_item` and `_create_report` invoke:
`requests.get` on the item URL, `extract_text_from_pdf_memory`, and
`extract_data_with_ai` (text and provider to structured data plus log).
Each may raise; `Except.error` carries `str(e)`. -/
structure ProcEnv where
  download : String → Except String (List Nat)
  extractText : List Nat → Except String String
  extractData : String → String → Except String (ReportData × AILog)

/-- Keep the earlier of two rows by `created_at` (ties keep the earlier
row), folded below to model `ORDER BY created_at ... .first()`. -/
def selectOldest : List QueueItem → Option QueueItem
  | [] => none
  | q :: rest =>
    match selectOldest rest with
    | none => some q
    | some m => if q.created_at ≤ m.created_at then some q else some m

/-- Embedding of `QueueProcessor._get_next_item`: the oldest queue row with status
`pending` and `retry_count < 3`. -/
def getNextItem (s : DBState) : Option QueueItem :=
  selectOldest
    (s.queue.filter (fun q => q.status == Status.pending && decide (q.retry_count < 3)))

/-- The hash lookup `db.session.query(Report).filter_by(file_hash=...)` in
`_process_item`.  For a manual upload the key is
`document_metadata.get('file_hash')`, which may be `None`; SQL `file_hash IS
NULL` never matches the `nullable=False` column, so a `none` key finds
nothing. -/
def findReportByHash (reports : List Report) (h : Option String) : Option Report :=
  match h with
  | none => none
  | some hv => reports.find? (fun r => r.file_hash == hv)

/-- Embedding of `QueueProcessor._create_report`: extract the text, recompute the SHA-256
of the bytes, run the AI extraction, and build the new `reports` row (child
rows inlined as list fields) together with its `ai_processing_logs` entry.
Any exception escapes after a session rollback, so a failing run persists
nothing. -/
def createReport (sha256 : List Nat → String) (env : ProcEnv) (nextId : Nat)
    (qi : QueueItem) (pdfContent : List Nat) (isUpload : Bool)
    (aiProvider : String) : Except String (Report × AILog) :=
  match env.extractText pdfContent with
  | Except.error e => Except.error e
  | Except.ok extractedText =>
  let fileHash := sha256 pdfContent
  match env.extractData extractedText aiProvider with
  | Except.error e => Except.error e
  | Except.ok (reportData, aiLog) =>
  let origFilename :=
    if isUpload then qi.document_metadata.original_filename.getD qi.title
    else qi.title ++ ".pdf"
  let sourceUrl :=
    if isUpload then ("Manual Upload: " ++ origFilename) else qi.url
  Except.ok
    ({ id := nextId
       report_title := reportData.report_title
       audit_organization := reportData.audit_organization
       publication_year := reportData.publication_year
       publication_month := reportData.publication_month
       publication_day := reportData.publication_day
       original_report_source_url := sourceUrl
       state := reportData.state
       audit_scope := reportData.audit_scope
       original_filename := origFilename
       file_hash := fileHash
       file_size_bytes := pdfContent.length
       status := "completed"
       processing_status := "completed"
       findings := reportData.findings
       recommendations := reportData.recommendations
       objectives := reportData.objectives
       keywords := reportData.extracted_keywords }, aiLog)

/-- Result of the `try` block of `_process_item` (steps 1–5). -/
inductive ProcOutcome where
  | dup (r : Report)
  | created (r : Report) (log : AILog)
  | raised (msg : String)
deriving DecidableEq, Repr

/-- The `try` block of `QueueProcessor._process_item`: branch on
`source_domain == 'manual_upload'`, obtain the raw bytes and the hash key
(the stored `file_hash` for uploads, a fresh SHA-256 for downloads), check
the hash against existing reports, and otherwise run `_create_report`.
`ValueError` on missing embedded content and `bytes.fromhex` failures
surface as `raised`, exactly like download or extraction exceptions.
(`_create_report` returns a report or raises, so the dead `if report:`
else-branch of the source has no counterpart.) -/
def processAttempt (sha256 : List Nat → String) (env : ProcEnv) (s : DBState)
    (qi : QueueItem) : ProcOutcome :=
  let isUpload := qi.source_domain == "manual_upload"
  let contentAndHash : Except String (List Nat × Option String) :=
    if isUpload then
      match qi.document_metadata.file_content with
      | none => Except.error ("No file content found in uploaded item metadata")
      | some hexStr =>
        match fromHex hexStr with
        | none => Except.error ("non-hexadecimal number found in fromhex() arg")
        | some content => Except.ok (content, qi.document_metadata.file_hash)
    else
      match env.download qi.url with
      | Except.error e => Except.error e
      | Except.ok content => Except.ok (content, some (sha256 content))
  match contentAndHash with
  | Except.error e => ProcOutcome.raised e
  | Except.ok (content, hashKey) =>
    match findReportByHash s.reports hashKey with
    | some r => ProcOutcome.dup r
    | none =>
      let aiProvider := qi.document_metadata.ai_provider.getD ("openai")
      match createReport sha256 env s.next_report_id qi content isUpload aiProvider with
      | Except.error e => ProcOutcome.raised e
      | Except.ok (rep, log) => ProcOutcome.created rep log

/-- The final field values of the processed row once `_process_item`
returns: the success/duplicate assignments, the `except` handler
(increment `retry_count`, revert to `pending` under the cap), and the
`finally` block that stamps `completed_at` unconditionally. -/
def processedItem (sha256 : List Nat → String) (env : ProcEnv) (now : Nat)
    (s : DBState) (qi : QueueItem) : QueueItem :=
  let base :=
    match processAttempt sha256 env s qi with
    | ProcOutcome.dup r =>
      { qi with status := Status.duplicate, report_id := some r.id }
    | ProcOutcome.created r _ =>
      { qi with status := Status.completed, report_id := some r.id }
    | ProcOutcome.raised e =>
      let rc := qi.retry_count + 1
      { qi with
          status := if rc < 3 then Status.pending else Status.failed
          error_message := some e
          retry_count := rc }
  { base with completed_at := some now }

/-- Write an updated row back over the row with the same id. -/
def updateItem (queue : List QueueItem) (i : Nat) (newItem : QueueItem) :
    List QueueItem :=
  queue.map (fun q => if q.id == i then newItem else q)

/-- Embedding of `QueueProcessor._process_item` as a whole-database transition: update
the row and, depending on the outcome, append the `duplicate_checks` row or
the freshly created report. -/
def processItem (sha256 : List Nat → String) (env : ProcEnv) (now : Nat)
    (s : DBState) (qi : QueueItem) : DBState :=
  let item2 := processedItem sha256 env now s qi
  match processAttempt sha256 env s qi with
  | ProcOutcome.dup r =>
    { s with
        queue := updateItem s.queue qi.id item2
        dup_checks := s.dup_checks ++
          [{ queue_item_id := qi.id, existing_report_id := r.id }] }
  | ProcOutcome.created r _ =>
    { s with
        queue := updateItem s.queue qi.id item2
        reports := s.reports ++ [r]
        next_report_id := s.next_report_id + 1 }
  | ProcOutcome.raised _ =>
    { s with queue := updateItem s.queue qi.id item2 }

/-- One observable transition of the shared queue table: a discovery batch
enqueued, an approval batch, a skip batch, a manual upload enqueued, or one
pass of the processor loop body (`_get_next_item` then `_process_item`). -/
inductive Step (sha256 : List Nat → String) : DBState → DBState → Prop where
  | add : ∀ s items ovs now, Step sha256 s (addToQueue ovs now s items).1
  | approve : ∀ s ids, Step sha256 s (approveForProcessing s ids).1
  | skip : ∀ s ids now, Step sha256 s (skipItems s ids now).1
  | upload : ∀ s origFilename filename content now,
      Step sha256 s
        { s with
            queue := s.queue ++
              [uploadQueueItem sha256 origFilename filename content s.next_queue_id now]
            next_queue_id := s.next_queue_id + 1 }
  | processNext : ∀ s env now qi, getNextItem s = some qi →
      Step sha256 s (processItem sha256 env now s qi)

/-- Structural well-formedness of the database: retry counts respect the
cap of 3, rows that are still selectable or awaiting review are under the
cap, primary keys are fresh and unique. -/
def WF (s : DBState) : Prop :=
  (∀ qi ∈ s.queue,
      qi.retry_count ≤ 3 ∧
      ((qi.status = Status.pending ∨ qi.status = Status.pendingReview) →
        qi.retry_count < 3) ∧
      qi.id < s.next_queue_id) ∧
  (s.queue.map (fun q => q.id)).Nodup

/-! ### `scraper/classifier.py` -/

/-- Python `str(x)` on an optional last error (`str(None) = "None"`). -/
def optStr : Option String → String
  | none => "None"
  | some s => s

/-- The all-attempts-failed result built at the end of
`MedicaidAuditClassifier._classify_with_retry`. -/
def failedResult (retryAttempts : Nat) (lastError : Option String)
    (providerName : String) : ClassificationResult :=
  { is_medicaid_audit := false
    confidence := 0
    document_type := "unknown"
    reasoning := "All " ++ toString retryAttempts ++ " attempts failed. Last error: " ++
      optStr lastError
    success := false
    error := some ("Failed after " ++ toString retryAttempts ++ " attempts: " ++
      optStr lastError)
    provider := some providerName }

/-- The attempt loop of `_classify_with_retry` over the remaining attempt
indices, threading `last_error`.  The underlying provider call
(`self.classifier.classify_document`) may raise (`Except.error`) or return
an unsuccessful result; either continues the loop. -/
def retryLoop (call : Nat → Except String ClassificationResult) :
    List Nat → Option String → ClassificationResult ⊕ Option String
  | [], lastError => Sum.inr lastError
  | i :: rest, _lastError =>
    match call i with
    | Except.ok r => if r.success then Sum.inl r else retryLoop call rest r.error
    | Except.error e => retryLoop call rest (some e)

/-- Embedding of `MedicaidAuditClassifier._classify_with_retry`: run up to
`retry_attempts` provider calls; the first successful result wins, and if
every attempt fails return the synthetic failure result (never raise). -/
def classifyWithRetry (retryAttempts : Nat) (providerName : String)
    (call : Nat → Except String ClassificationResult) : ClassificationResult :=
  match retryLoop call (List.range retryAttempts) none with
  | Sum.inl r => r
  | Sum.inr lastError => failedResult retryAttempts lastError providerName

/-- A normalized search result dict as produced by
`MedicaidAuditSearcher.search` and consumed by `classify_batch`. -/
structure PdfResult where
  title : String
  url : String
  snippet : String
  source : String
  mime_type : String
  file_format : String
  formatted_url : String
  metadata : DocMeta
  thumbnail_url : Option String
deriving DecidableEq, Repr

/-- A search result dict after `classify_batch` added its
`ai_classification` entry. -/
structure ClassifiedResult where
  result : PdfResult
  ai_classification : ClassificationResult
deriving DecidableEq, Repr

/-- The failed-classification record `classify_batch` writes for an item
whose classification call raised. -/
def failedBatchEntry (e providerName : String) : ClassificationResult :=
  { is_medicaid_audit := false
    confidence := 0
    document_type := "unknown"
    reasoning := "Classification failed: " ++ e
    success := false
    error := some e
    provider := some providerName }

/-- Fuelled batching helper: fuel bounds the recursion depth so the
definition is total even for a zero batch size. -/
def chunksAux (n : Nat) : Nat → List α → List (List α)
  | 0, _ => []
  | _, [] => []
  | Nat.succ fuel, l => l.take n :: chunksAux n fuel (l.drop n)

/-- The batch slices `search_results[i:i+batch_size]` visited by the
`range(0, total, batch_size)` loop of `classify_batch`. -/
def chunks (n : Nat) (l : List α) : List (List α) :=
  chunksAux n l.length l

/-- The per-item body of the inner loop of `classify_batch`: attach the
classification, degrading an exception from the call to a
failed-classification record for that item alone. -/
def classifyOne (providerName : String)
    (call : String → String → String → Except String ClassificationResult)
    (r : PdfResult) : ClassifiedResult :=
  match call r.title r.snippet r.url with
  | Except.ok c => { result := r, ai_classification := c }
  | Except.error e => { result := r, ai_classification := failedBatchEntry e providerName }

/-- Embedding of `MedicaidAuditClassifier.classify_batch`: walk the input in fixed-size
batches (the inter-batch `time.sleep` is timing only and has no state
counterpart), appending one classified record per item. -/
def classifyBatch (batchSize : Nat) (providerName : String)
    (call : String → String → String → Except String ClassificationResult)
    (searchResults : List PdfResult) : List ClassifiedResult :=
  ((chunks batchSize searchResults).map (fun batch =>
    batch.map (classifyOne providerName call))).flatten

/-! ### `scraper/search.py` -/

/-- The `metatags` entry of a CSE item's `pagemap`. -/
structure MetaTags where
  author : Option String := none
  creationdate : Option String := none
  subject : Option String := none
  creator : Option String := none
deriving DecidableEq, Repr

/-- The `cse_thumbnail` entry of a CSE item's `pagemap`. -/
structure Thumb where
  src : Option String := none
deriving DecidableEq, Repr

/-- The `pagemap` payload of a CSE item.  `metatags` distinguishes an
absent key (Python `pagemap.get('metatags', [{}])` falls back to `[{}]`)
from a present list, which may be empty — in which case indexing `[0]`
raises `IndexError`.  `cse_thumbnail` needs no such distinction: its
default is `[]` and the code guards `if thumbnails:` before indexing. -/
structure PageMapData where
  metatags : Option (List MetaTags) := none
  cse_thumbnail : List Thumb := []
deriving DecidableEq, Repr

/-- One raw item of a Google Custom Search response. -/
structure CSEItem where
  title : Option String := none
  link : String
  snippet : Option String := none
  displayLink : Option String := none
  mime : Option String := none
  fileFormat : Option String := none
  formattedUrl : Option String := none
  pagemap : Option PageMapData := none
deriving DecidableEq, Repr

/-- One response of the paginated CSE call; `items` is absent when the page
is empty. -/
structure SearchResponse where
  items : Option (List CSEItem) := none
deriving DecidableEq, Repr

/-- A transport error (`googleapiclient.errors.HttpError`); `text` is
`str(e)`, which for this client embeds the request URL including the
`key=` parameter. -/
structure HttpErr where
  text : String
deriving DecidableEq, Repr

/-- The external CSE call: `start` index and `num` page size to a response
or a transport error.  The query string and `dateRestrict` are fixed per
search run and folded into the environment. -/
structure SearchEnv where
  fetch : Nat → Nat → Except HttpErr SearchResponse

/-- Python `str.lower()`. -/
def lowerStr (s : String) : String :=
  String.mk (s.data.map Char.toLower)

/-- Python `needle in hay` on strings, over the character lists. -/
def containsSub (needle : List Char) : List Char → Bool
  | [] => needle.isEmpty
  | c :: t => needle.isPrefixOf (c :: t) || containsSub needle t

/-- Embedding of the check `item.get('link','').lower().endswith('.pdf')`. -/
def endsWithPdf (s : String) : Bool :=
  (".pdf".data).isSuffixOf (lowerStr s).data

/-- Embedding of `MedicaidAuditSearcher.is_likely_audit`: must mention `medicaid` in the
lowercased title, url or snippet, and the title must avoid the exclusion
keywords. -/
def isLikelyAudit (r : PdfResult) : Bool :=
  let titleLower := (lowerStr r.title).data
  let urlLower := (lowerStr r.url).data
  let snippetLower := (lowerStr r.snippet).data
  if !([titleLower, urlLower, snippetLower].any (fun t => containsSub ("medicaid".data) t))
  then false
  else
    let excludeTerms := ["manual", "guide", "form", "application", "faq",
      "enrollment", "provider directory", "bulletin", "newsletter"]
    if excludeTerms.any (fun t => containsSub t.data titleLower) then false
    else true

/-- The enrichment of a base `pdf_result` with one `metatags` entry. -/
def withMetaTags (base : PdfResult) (mt : MetaTags) : PdfResult :=
  { base with
      metadata :=
        { author := some (mt.author.getD (""))
          creation_date := some (mt.creationdate.getD (""))
          subject := some (mt.subject.getD (""))
          creator := some (mt.creator.getD ("")) } }

/-- The `pdf_result` dict built in the pagination loop for one raw item,
including the pagemap enrichment.  When `pagemap` carries a
present-but-empty `metatags` list, Python's
`item['pagemap'].get('metatags', [{}])[0]` raises `IndexError`, modelled
as `Except.error`; an absent key yields the default singleton `[{}]`,
i.e. an all-empty metatags entry. -/
def itemToPdfResult (item : CSEItem) : Except String PdfResult :=
  let base : PdfResult :=
    { title := item.title.getD ("Unknown")
      url := item.link
      snippet := item.snippet.getD ("")
      source := item.displayLink.getD ("")
      mime_type := item.mime.getD ("")
      file_format := item.fileFormat.getD ("")
      formatted_url := item.formattedUrl.getD ("")
      metadata := {}
      thumbnail_url := none }
  match item.pagemap with
  | none => Except.ok base
  | some pm =>
    match pm.metatags with
    | some [] => Except.error ("list index out of range")
    | some (mt :: _) => Except.ok (finishThumb (withMetaTags base mt) pm)
    | none => Except.ok (finishThumb (withMetaTags base {}) pm)
where
  finishThumb (withMeta : PdfResult) (pm : PageMapData) : PdfResult :=
    match pm.cse_thumbnail with
    | [] => withMeta
    | th :: _ => { withMeta with thumbnail_url := some (th.src.getD ("")) }

/-- The per-page item loop of `search`: keep PDF links, build the
`pdf_result` (which may raise `IndexError`, aborting the whole search),
and apply `is_likely_audit`. -/
def processItems : List CSEItem → Except String (List PdfResult)
  | [] => Except.ok []
  | it :: rest =>
    if endsWithPdf it.link then
      match itemToPdfResult it with
      | Except.error e => Except.error e
      | Except.ok pr =>
        match processItems rest with
        | Except.error e => Except.error e
        | Except.ok acc =>
          Except.ok (if isLikelyAudit pr then pr :: acc else acc)
    else processItems rest

/-- The start indices `range(1, min(max_results + 1, 101), 10)` of the
pagination loop. -/
def startIndices (maxResults : Nat) : List Nat :=
  ((List.range 10).map (fun k => 1 + 10 * k)).filter
    (fun st => st < min (maxResults + 1) 101)

/-- What can escape `MedicaidAuditSearcher.search`: a transport error
(`HttpError`, re-raised verbatim by the handler after redacting only the
console copy) or the uncaught `IndexError` from an empty `metatags`
list. -/
inductive SearchExn where
  | http (e : HttpErr)
  | indexError (msg : String)
deriving DecidableEq, Repr

/-- The pagination loop of `MedicaidAuditSearcher.search`.  A transport
error on any page aborts the whole loop and re-raises the original
exception (the `except HttpError` handler only redacts the copy it prints
to the console before `raise`); an `IndexError` while building a
`pdf_result` propagates uncaught; success paths accumulate `results` (raw
items) and `pdf_results` and stop early when enough PDFs were collected or
a page comes back short. -/
def searchGo (env : SearchEnv) (maxResults : Nat) :
    List Nat → List CSEItem → List PdfResult → Except SearchExn (List PdfResult)
  | [], _, pdfResults => Except.ok pdfResults
  | start :: rest, results, pdfResults =>
    match env.fetch start (min 10 (maxResults - results.length)) with
    | Except.error e => Except.error (SearchExn.http e)
    | Except.ok resp =>
      match resp.items with
      | none => Except.ok pdfResults
      | some items =>
        match processItems items with
        | Except.error msg => Except.error (SearchExn.indexError msg)
        | Except.ok newPdfs =>
          if maxResults ≤ (pdfResults ++ newPdfs).length then
            Except.ok (pdfResults ++ newPdfs)
          else if items.length < 10 then Except.ok (pdfResults ++ newPdfs)
          else searchGo env maxResults rest (results ++ items) (pdfResults ++ newPdfs)

/-- Embedding of `MedicaidAuditSearcher.search`: run the pagination loop from an empty
accumulator; the returned list exists only on full success. -/
def search (env : SearchEnv) (maxResults : Nat) : Except SearchExn (List PdfResult) :=
  searchGo env maxResults (startIndices maxResults) [] []

/-! ### Helper lemmas about the embedded operations -/

/-- The single-id update applied by `approve_for_processing`. -/
def approveUpd (i : Nat) (q : QueueItem) : QueueItem :=
  if q.id = i ∧ q.status = Status.pendingReview then { q with status := Status.pending } else q

/-- The batch update applied by `approve_for_processing` over an id list. -/
def approveUpdL (ids : List Nat) (q : QueueItem) : QueueItem :=
  if q.id ∈ ids ∧ q.status = Status.pendingReview then { q with status := Status.pending } else q

/-- Selector for the rows `approve_for_processing` actually transitions. -/
def approveSel (ids : List Nat) (q : QueueItem) : Bool :=
  decide (q.id ∈ ids) && q.status == Status.pendingReview

theorem approveOne_eq_map {queue : List QueueItem} {i : Nat}
    (hnd : (queue.map (fun q => q.id)).Nodup) :
    approveOne queue i = (queue.map (approveUpd i),
      queue.any (fun q => q.id == i && q.status == Status.pendingReview)) := by
  induction queue with
  | nil => rfl
  | cons q rest ih =>
    simp only [List.map_cons, List.nodup_cons] at hnd
    by_cases hq : q.id = i ∧ q.status = Status.pendingReview
    · have hb : (q.id == i && q.status == Status.pendingReview) = true := by
        simp [hq.1, hq.2]
      have hrest : rest.map (approveUpd i) = rest := by
        apply List.map_congr_left ?_ |>.trans (List.map_id rest)
        intro x hx
        have hxid : x.id ≠ i := by
          intro hcon
          exact hnd.1 (hq.1 ▸ hcon ▸ List.mem_map_of_mem (fun q => q.id) hx)
        simp [approveUpd, hxid]
      simp [approveOne, hb, List.map_cons, approveUpd, hq.1, hq.2, hrest]
    · have hb : (q.id == i && q.status == Status.pendingReview) = false := by
        rcases (not_and_or.mp hq) with h1 | h1 <;> simp [h1]
      simp [approveOne, hb, ih hnd.2, List.map_cons, approveUpd, hq]

/-- The single-id update applied by `skip_items`. -/
def skipUpd (now i : Nat) (q : QueueItem) : QueueItem :=
  if q.id = i ∧ q.status = Status.pendingReview then
    { q with status := Status.skipped, completed_at := some now } else q

/-- The batch update applied by `skip_items` over an id list. -/
def skipUpdL (now : Nat) (ids : List Nat) (q : QueueItem) : QueueItem :=
  if q.id ∈ ids ∧ q.status = Status.pendingReview then
    { q with status := Status.skipped, completed_at := some now } else q

theorem skipOne_eq_map {queue : List QueueItem} {now i : Nat}
    (hnd : (queue.map (fun q => q.id)).Nodup) :
    skipOne now queue i = (queue.map (skipUpd now i),
      queue.any (fun q => q.id == i && q.status == Status.pendingReview)) := by
  induction queue with
  | nil => rfl
  | cons q rest ih =>
    simp only [List.map_cons, List.nodup_cons] at hnd
    by_cases hq : q.id = i ∧ q.status = Status.pendingReview
    · have hb : (q.id == i && q.status == Status.pendingReview) = true := by
        simp [hq.1, hq.2]
      have hrest : rest.map (skipUpd now i) = rest := by
        apply List.map_congr_left ?_ |>.trans (List.map_id rest)
        intro x hx
        have hxid : x.id ≠ i := by
          intro hcon
          exact hnd.1 (hq.1 ▸ hcon ▸ List.mem_map_of_mem (fun q => q.id) hx)
        simp [skipUpd, hxid]
      simp [skipOne, hb, List.map_cons, skipUpd, hq.1, hq.2, hrest]
    · have hb : (q.id == i && q.status == Status.pendingReview) = false := by
        rcases (not_and_or.mp hq) with h1 | h1 <;> simp [h1]
      simp [skipOne, hb, ih hnd.2, List.map_cons, skipUpd, hq]

/-- Selector for the rows the operator-gated batch operations
(`approve_for_processing`, `skip_items`) actually transition. -/
def reviewSel (ids : List Nat) (q : QueueItem) : Bool :=
  decide (q.id ∈ ids) && q.status == Status.pendingReview

/-- Head selector for a single id. -/
def reviewSel1 (i : Nat) (q : QueueItem) : Bool :=
  q.id == i && q.status == Status.pendingReview

theorem approveUpd_id (i : Nat) (q : QueueItem) : (approveUpd i q).id = q.id := by
  unfold approveUpd; split <;> rfl

theorem skipUpd_id (now i : Nat) (q : QueueItem) : (skipUpd now i q).id = q.id := by
  unfold skipUpd; split <;> rfl

theorem approveUpd_comp (i : Nat) (ids : List Nat) (q : QueueItem) :
    approveUpdL ids (approveUpd i q) = approveUpdL (i :: ids) q := by
  by_cases h1 : q.id = i ∧ q.status = Status.pendingReview
  · simp [approveUpd, approveUpdL, h1]
  · have hupd : approveUpd i q = q := by simp [approveUpd, h1]
    rw [hupd]
    by_cases h2 : q.status = Status.pendingReview
    · have hne : q.id ≠ i := fun hc => h1 ⟨hc, h2⟩
      simp [approveUpdL, h2, List.mem_cons, hne]
    · simp [approveUpdL, h2]

theorem skipUpd_comp (now i : Nat) (ids : List Nat) (q : QueueItem) :
    skipUpdL now ids (skipUpd now i q) = skipUpdL now (i :: ids) q := by
  by_cases h1 : q.id = i ∧ q.status = Status.pendingReview
  · simp [skipUpd, skipUpdL, h1]
  · have hupd : skipUpd now i q = q := by simp [skipUpd, h1]
    rw [hupd]
    by_cases h2 : q.status = Status.pendingReview
    · have hne : q.id ≠ i := fun hc => h1 ⟨hc, h2⟩
      simp [skipUpdL, h2, List.mem_cons, hne]
    · simp [skipUpdL, h2]

theorem reviewSel_approveUpd (ids : List Nat) (i : Nat) (q : QueueItem) :
    reviewSel ids (approveUpd i q) = (!(reviewSel1 i q) && reviewSel ids q) := by
  by_cases h1 : q.id = i ∧ q.status = Status.pendingReview
  · simp [approveUpd, reviewSel, reviewSel1, h1]
  · have hupd : approveUpd i q = q := by simp [approveUpd, h1]
    have hsel : reviewSel1 i q = false := by
      rcases not_and_or.mp h1 with h2 | h2 <;> simp [reviewSel1, h2]
    rw [hupd, hsel]; simp

theorem reviewSel_skipUpd (now : Nat) (ids : List Nat) (i : Nat) (q : QueueItem) :
    reviewSel ids (skipUpd now i q) = (!(reviewSel1 i q) && reviewSel ids q) := by
  by_cases h1 : q.id = i ∧ q.status = Status.pendingReview
  · simp [skipUpd, reviewSel, reviewSel1, h1]
  · have hupd : skipUpd now i q = q := by simp [skipUpd, h1]
    have hsel : reviewSel1 i q = false := by
      rcases not_and_or.mp h1 with h2 | h2 <;> simp [reviewSel1, h2]
    rw [hupd, hsel]; simp

theorem reviewSel_cons (i : Nat) (ids : List Nat) (q : QueueItem) :
    reviewSel (i :: ids) q = (reviewSel1 i q || reviewSel ids q) := by
  by_cases h2 : q.status = Status.pendingReview
  · by_cases h1 : q.id = i <;> simp [reviewSel, reviewSel1, h1, h2, List.mem_cons]
  · have hb : (q.status == Status.pendingReview) = false := by simp [h2]
    simp [reviewSel, reviewSel1, hb]

theorem countP_or_split (p q : α → Bool) (l : List α) :
    l.countP (fun x => p x || q x) = l.countP p + l.countP (fun x => !p x && q x) := by
  induction l with
  | nil => rfl
  | cons x t ih =>
    by_cases hp : p x <;> by_cases hq : q x <;>
      simp [List.countP_cons, hp, hq, ih] <;> omega

theorem countP_reviewSel1 (i : Nat) (queue : List QueueItem)
    (hnd : (queue.map (fun q => q.id)).Nodup) :
    queue.countP (reviewSel1 i) = if queue.any (reviewSel1 i) then 1 else 0 := by
  induction queue with
  | nil => rfl
  | cons q rest ih =>
    simp only [List.map_cons, List.nodup_cons] at hnd
    by_cases hsel : reviewSel1 i q = true
    · have hid : q.id = i := by
        have := hsel
        simp only [reviewSel1, Bool.and_eq_true, beq_iff_eq] at this
        exact this.1
      have hrest : rest.countP (reviewSel1 i) = 0 := by
        rw [List.countP_eq_zero]
        intro x hx
        have hxid : x.id ≠ i := by
          intro hc
          exact hnd.1 (hid ▸ hc ▸ List.mem_map_of_mem (fun q => q.id) hx)
        simp [reviewSel1, hxid]
      simp [List.countP_cons, List.any_cons, hsel, hrest]
    · simp only [Bool.not_eq_true] at hsel
      simp [List.countP_cons, List.any_cons, hsel, ih hnd.2]

theorem approveList_spec (ids : List Nat) (queue : List QueueItem)
    (hnd : (queue.map (fun q => q.id)).Nodup) :
    approveList queue ids = (queue.map (approveUpdL ids), queue.countP (reviewSel ids)) := by
  induction ids generalizing queue with
  | nil =>
    have h1 : queue.map (approveUpdL []) = queue := by
      apply (List.map_congr_left ?_).trans (List.map_id queue)
      intro q _; simp [approveUpdL]
    have h2 : queue.countP (reviewSel []) = 0 := by
      rw [List.countP_eq_zero]; intro q _; simp [reviewSel]
    simp [approveList, h1, h2]
  | cons i rest ih =>
    have hids : (queue.map (approveUpd i)).map (fun q => q.id) = queue.map (fun q => q.id) := by
      rw [List.map_map]
      exact List.map_congr_left (fun q _ => approveUpd_id i q)
    have hnd2 : ((queue.map (approveUpd i)).map (fun q => q.id)).Nodup := by
      rw [hids]; exact hnd
    simp only [approveList, approveOne_eq_map hnd, ih _ hnd2, Prod.mk.injEq]
    refine ⟨?_, ?_⟩
    · rw [List.map_map]
      exact List.map_congr_left (fun q _ => approveUpd_comp i rest q)
    · have hc1 : (queue.map (approveUpd i)).countP (reviewSel rest)
          = queue.countP (fun q => !(reviewSel1 i q) && reviewSel rest q) := by
        rw [List.countP_map]
        exact List.countP_congr
          (fun x _ => by rw [Function.comp_apply, reviewSel_approveUpd rest i x])
      have hc2 : queue.countP (reviewSel (i :: rest))
          = queue.countP (fun q => reviewSel1 i q || reviewSel rest q) :=
        List.countP_congr (fun x _ => by rw [reviewSel_cons i rest x])
      rw [hc1, hc2, countP_or_split, countP_reviewSel1 i queue hnd]
      rfl

theorem skipList_spec (now : Nat) (ids : List Nat) (queue : List QueueItem)
    (hnd : (queue.map (fun q => q.id)).Nodup) :
    skipList now queue ids = (queue.map (skipUpdL now ids), queue.countP (reviewSel ids)) := by
  induction ids generalizing queue with
  | nil =>
    have h1 : queue.map (skipUpdL now []) = queue := by
      apply (List.map_congr_left ?_).trans (List.map_id queue)
      intro q _; simp [skipUpdL]
    have h2 : queue.countP (reviewSel []) = 0 := by
      rw [List.countP_eq_zero]; intro q _; simp [reviewSel]
    simp [skipList, h1, h2]
  | cons i rest ih =>
    have hids : (queue.map (skipUpd now i)).map (fun q => q.id) = queue.map (fun q => q.id) := by
      rw [List.map_map]
      exact List.map_congr_left (fun q _ => skipUpd_id now i q)
    have hnd2 : ((queue.map (skipUpd now i)).map (fun q => q.id)).Nodup := by
      rw [hids]; exact hnd
    simp only [skipList, skipOne_eq_map hnd, ih _ hnd2, Prod.mk.injEq]
    refine ⟨?_, ?_⟩
    · rw [List.map_map]
      exact List.map_congr_left (fun q _ => skipUpd_comp now i rest q)
    · have hc1 : (queue.map (skipUpd now i)).countP (reviewSel rest)
          = queue.countP (fun q => !(reviewSel1 i q) && reviewSel rest q) := by
        rw [List.countP_map]
        exact List.countP_congr
          (fun x _ => by rw [Function.comp_apply, reviewSel_skipUpd now rest i x])
      have hc2 : queue.countP (reviewSel (i :: rest))
          = queue.countP (fun q => reviewSel1 i q || reviewSel rest q) :=
        List.countP_congr (fun x _ => by rw [reviewSel_cons i rest x])
      rw [hc1, hc2, countP_or_split, countP_reviewSel1 i queue hnd]
      rfl

theorem selectOldest_mem : ∀ {l : List QueueItem} {q : QueueItem},
    selectOldest l = some q → q ∈ l := by
  intro l
  induction l with
  | nil => intro q h; cases h
  | cons x rest ih =>
    intro q h
    simp only [selectOldest] at h
    cases hrest : selectOldest rest with
    | none =>
      rw [hrest] at h
      change some x = some q at h
      injection h with h2
      subst h2
      exact List.mem_cons_self x rest
    | some m =>
      rw [hrest] at h
      change (if x.created_at ≤ m.created_at then some x else some m) = some q at h
      split_ifs at h
      · injection h with h2
        subst h2
        exact List.mem_cons_self x rest
      · injection h with h2
        subst h2
        exact List.mem_cons_of_mem x (ih hrest)

theorem getNextItem_spec {s : DBState} {q : QueueItem} (h : getNextItem s = some q) :
    q ∈ s.queue ∧ q.status = Status.pending ∧ q.retry_count < 3 := by
  have hmem := selectOldest_mem h
  rw [List.mem_filter] at hmem
  have hpred := hmem.2
  simp only [Bool.and_eq_true, beq_iff_eq, decide_eq_true_eq] at hpred
  exact ⟨hmem.1, hpred.1, hpred.2⟩

theorem eq_of_id_nodup {queue : List QueueItem}
    (hnd : (queue.map (fun q => q.id)).Nodup) {a b : QueueItem}
    (ha : a ∈ queue) (hb : b ∈ queue) (hid : a.id = b.id) : a = b :=
  List.inj_on_of_nodup_map hnd ha hb hid

theorem addToQueue_WF (ovs : List (String × Bool)) (now : Nat) :
    ∀ (items : List ClassifiedItem) (s : DBState), WF s →
      WF (addToQueue ovs now s items).1 ∧
      ∃ tail, (addToQueue ovs now s items).1.queue = s.queue ++ tail ∧
        ∀ qi ∈ tail, qi.status = Status.pending ∧ qi.retry_count = 0 := by
  intro items
  induction items with
  | nil =>
    intro s hwf
    exact ⟨hwf, [], by simp [addToQueue], by simp⟩
  | cons item rest ih =>
    intro s hwf
    by_cases hdup : checkDuplicate s item.url = true
    · simpa [addToQueue, hdup] using ih s hwf
    · rw [Bool.not_eq_true] at hdup
      have hstep : addToQueue ovs now s (item :: rest) =
          ((addToQueue ovs now { s with
              queue := s.queue ++ [enqueuedItem item ovs s.next_queue_id now]
              next_queue_id := s.next_queue_id + 1 } rest).1,
            (addToQueue ovs now { s with
              queue := s.queue ++ [enqueuedItem item ovs s.next_queue_id now]
              next_queue_id := s.next_queue_id + 1 } rest).2 + 1) := by
        simp [addToQueue, hdup]
      have hwf1 : WF { s with
          queue := s.queue ++ [enqueuedItem item ovs s.next_queue_id now]
          next_queue_id := s.next_queue_id + 1 } := by
        obtain ⟨hrows, hnd⟩ := hwf
        constructor
        · intro qi hqi
          rcases List.mem_append.mp hqi with hqi | hqi
          · obtain ⟨h1, h2, h3⟩ := hrows qi hqi
            refine ⟨h1, h2, ?_⟩
            show qi.id < s.next_queue_id + 1
            omega
          · rcases List.mem_singleton.mp hqi with rfl
            refine ⟨by simp [enqueuedItem], ?_, ?_⟩
            · intro
              simp [enqueuedItem]
            · show (enqueuedItem item ovs s.next_queue_id now).id < s.next_queue_id + 1
              simp [enqueuedItem]
        · show ((s.queue ++ [enqueuedItem item ovs s.next_queue_id now]).map
            (fun q => q.id)).Nodup
          rw [List.map_append, List.nodup_append]
          refine ⟨hnd, by simp, ?_⟩
          intro x hx
          have hlt : x < s.next_queue_id := by
            rw [List.mem_map] at hx
            obtain ⟨qi, hqi, rfl⟩ := hx
            exact (hrows qi hqi).2.2
          simp only [List.map_cons, List.map_nil, enqueuedItem]
          intro hy
          rcases List.mem_singleton.mp hy with rfl
          omega
      obtain ⟨hwfr, tail1, htail1, hprops⟩ := ih _ hwf1
      refine ⟨?_, enqueuedItem item ovs s.next_queue_id now :: tail1, ?_, ?_⟩
      · rw [hstep]
        exact hwfr
      · rw [hstep]
        show (addToQueue ovs now _ rest).1.queue = _
        rw [htail1]
        show (s.queue ++ [enqueuedItem item ovs s.next_queue_id now]) ++ tail1 = _
        simp
      · intro qi hqi
        rcases List.mem_cons.mp hqi with rfl | hqi
        · exact ⟨by simp [enqueuedItem], by simp [enqueuedItem]⟩
        · exact hprops qi hqi

theorem processedItem_dup {sha256 : List Nat → String} {env : ProcEnv} {now : Nat}
    {s : DBState} {qi : QueueItem} {r : Report}
    (h : processAttempt sha256 env s qi = ProcOutcome.dup r) :
    processedItem sha256 env now s qi =
      { qi with
          status := Status.duplicate
          report_id := some r.id
          completed_at := some now } := by
  simp [processedItem, h]

theorem processedItem_created {sha256 : List Nat → String} {env : ProcEnv} {now : Nat}
    {s : DBState} {qi : QueueItem} {r : Report} {log : AILog}
    (h : processAttempt sha256 env s qi = ProcOutcome.created r log) :
    processedItem sha256 env now s qi =
      { qi with
          status := Status.completed
          report_id := some r.id
          completed_at := some now } := by
  simp [processedItem, h]

theorem processedItem_raised {sha256 : List Nat → String} {env : ProcEnv} {now : Nat}
    {s : DBState} {qi : QueueItem} {e : String}
    (h : processAttempt sha256 env s qi = ProcOutcome.raised e) :
    processedItem sha256 env now s qi =
      { qi with
          status := if qi.retry_count + 1 < 3 then Status.pending else Status.failed
          error_message := some e
          retry_count := qi.retry_count + 1
          completed_at := some now } := by
  simp [processedItem, h]

theorem processedItem_completed_at (sha256 : List Nat → String) (env : ProcEnv)
    (now : Nat) (s : DBState) (qi : QueueItem) :
    (processedItem sha256 env now s qi).completed_at = some now := by
  rcases h : processAttempt sha256 env s qi with r | ⟨r, log⟩ | e
  · rw [processedItem_dup h]
  · rw [processedItem_created h]
  · rw [processedItem_raised h]

theorem processedItem_id (sha256 : List Nat → String) (env : ProcEnv)
    (now : Nat) (s : DBState) (qi : QueueItem) :
    (processedItem sha256 env now s qi).id = qi.id := by
  rcases h : processAttempt sha256 env s qi with r | ⟨r, log⟩ | e
  · rw [processedItem_dup h]
  · rw [processedItem_created h]
  · rw [processedItem_raised h]

theorem processedItem_retry_ge (sha256 : List Nat → String) (env : ProcEnv)
    (now : Nat) (s : DBState) (qi : QueueItem) :
    qi.retry_count ≤ (processedItem sha256 env now s qi).retry_count := by
  rcases h : processAttempt sha256 env s qi with r | ⟨r, log⟩ | e
  · rw [processedItem_dup h]
  · rw [processedItem_created h]
  · rw [processedItem_raised h]
    simp

theorem processItem_queue (sha256 : List Nat → String) (env : ProcEnv)
    (now : Nat) (s : DBState) (qi : QueueItem) :
    (processItem sha256 env now s qi).queue =
      updateItem s.queue qi.id (processedItem sha256 env now s qi) ∧
    (processItem sha256 env now s qi).next_queue_id = s.next_queue_id := by
  rcases h : processAttempt sha256 env s qi with r | ⟨r, log⟩ | e <;>
    simp [processItem, h]

theorem approveForProcessing_queue (s : DBState) (ids : List Nat)
    (hnd : (s.queue.map (fun q => q.id)).Nodup) :
    (approveForProcessing s ids).1.queue = s.queue.map (approveUpdL ids) ∧
    (approveForProcessing s ids).1.next_queue_id = s.next_queue_id := by
  simp only [approveForProcessing, approveList_spec ids s.queue hnd]
  by_cases hc : 0 < s.queue.countP (reviewSel ids) <;> simp [hc]

theorem skipItems_queue (s : DBState) (ids : List Nat) (now : Nat)
    (hnd : (s.queue.map (fun q => q.id)).Nodup) :
    (skipItems s ids now).1.queue = s.queue.map (skipUpdL now ids) ∧
    (skipItems s ids now).1.next_queue_id = s.next_queue_id := by
  simp [skipItems, skipList_spec now ids s.queue hnd]

/-- The spec glossary's terminal states: completed, duplicate, skipped, or
failed after the maximum of 3 attempts. -/
def terminal (qi : QueueItem) : Bool :=
  qi.status == Status.completed || qi.status == Status.duplicate ||
    qi.status == Status.skipped ||
    (qi.status == Status.failed && qi.retry_count == 3)

/-- Per-row facts relating a queue row before and after one step: the id is
stable, `retry_count` never decreases, and a row that is `failed` at the
retry cap is frozen. -/
def evolves (a b : QueueItem) : Prop :=
  a.id = b.id ∧ a.retry_count ≤ b.retry_count ∧
    (a.status = Status.failed ∧ a.retry_count = 3 → b = a)

theorem evolves_refl (a : QueueItem) : evolves a a :=
  ⟨rfl, Nat.le_refl _, fun _ => rfl⟩

theorem approveUpdL_id (ids : List Nat) (q : QueueItem) :
    (approveUpdL ids q).id = q.id := by
  unfold approveUpdL; split <;> rfl

theorem approveUpdL_retry (ids : List Nat) (q : QueueItem) :
    (approveUpdL ids q).retry_count = q.retry_count := by
  unfold approveUpdL; split <;> rfl

theorem skipUpdL_id (now : Nat) (ids : List Nat) (q : QueueItem) :
    (skipUpdL now ids q).id = q.id := by
  unfold skipUpdL; split <;> rfl

theorem skipUpdL_retry (now : Nat) (ids : List Nat) (q : QueueItem) :
    (skipUpdL now ids q).retry_count = q.retry_count := by
  unfold skipUpdL; split <;> rfl

theorem evolves_approveUpdL (ids : List Nat) (a : QueueItem) :
    evolves a (approveUpdL ids a) := by
  by_cases h : a.id ∈ ids ∧ a.status = Status.pendingReview
  · refine ⟨(approveUpdL_id ids a).symm, ?_, ?_⟩
    · rw [approveUpdL_retry]
    · intro hfr
      rw [h.2] at hfr
      cases hfr.1
  · simp only [approveUpdL, if_neg h]
    exact evolves_refl a

theorem evolves_skipUpdL (now : Nat) (ids : List Nat) (a : QueueItem) :
    evolves a (skipUpdL now ids a) := by
  by_cases h : a.id ∈ ids ∧ a.status = Status.pendingReview
  · refine ⟨(skipUpdL_id now ids a).symm, ?_, ?_⟩
    · rw [skipUpdL_retry]
    · intro hfr
      rw [h.2] at hfr
      cases hfr.1
  · simp only [skipUpdL, if_neg h]
    exact evolves_refl a

theorem WF_approve (s : DBState) (ids : List Nat) (hwf : WF s) :
    WF (approveForProcessing s ids).1 := by
  obtain ⟨hrows, hnd⟩ := hwf
  obtain ⟨hq, hnext⟩ := approveForProcessing_queue s ids hnd
  constructor
  · intro qi hqi
    rw [hq] at hqi
    rw [List.mem_map] at hqi
    obtain ⟨q, hqm, rfl⟩ := hqi
    obtain ⟨h1, h2, h3⟩ := hrows q hqm
    rw [hnext]
    refine ⟨?_, ?_, ?_⟩
    · rw [approveUpdL_retry]; exact h1
    · intro hst
      rw [approveUpdL_retry]
      by_cases hc : q.id ∈ ids ∧ q.status = Status.pendingReview
      · exact h2 (Or.inr hc.2)
      · simp only [approveUpdL, if_neg hc] at hst
        exact h2 hst
    · rw [approveUpdL_id]; exact h3
  · rw [hq, List.map_map]
    have : ((fun q => q.id) ∘ approveUpdL ids) = fun (q : QueueItem) => q.id :=
      funext (fun q => approveUpdL_id ids q)
    rw [this]
    exact hnd

theorem WF_skip (s : DBState) (ids : List Nat) (now : Nat) (hwf : WF s) :
    WF (skipItems s ids now).1 := by
  obtain ⟨hrows, hnd⟩ := hwf
  obtain ⟨hq, hnext⟩ := skipItems_queue s ids now hnd
  constructor
  · intro qi hqi
    rw [hq] at hqi
    rw [List.mem_map] at hqi
    obtain ⟨q, hqm, rfl⟩ := hqi
    obtain ⟨h1, h2, h3⟩ := hrows q hqm
    rw [hnext]
    refine ⟨?_, ?_, ?_⟩
    · rw [skipUpdL_retry]; exact h1
    · intro hst
      rw [skipUpdL_retry]
      by_cases hc : q.id ∈ ids ∧ q.status = Status.pendingReview
      · exact h2 (Or.inr hc.2)
      · simp only [skipUpdL, if_neg hc] at hst
        exact h2 hst
    · rw [skipUpdL_id]; exact h3
  · rw [hq, List.map_map]
    have : ((fun q => q.id) ∘ skipUpdL now ids) = fun (q : QueueItem) => q.id :=
      funext (fun q => skipUpdL_id now ids q)
    rw [this]
    exact hnd

theorem processedItem_clauses (sha256 : List Nat → String) (env : ProcEnv)
    (now : Nat) (s : DBState) (qi : QueueItem) (hr : qi.retry_count < 3) :
    (processedItem sha256 env now s qi).retry_count ≤ 3 ∧
    (((processedItem sha256 env now s qi).status = Status.pending ∨
      (processedItem sha256 env now s qi).status = Status.pendingReview) →
      (processedItem sha256 env now s qi).retry_count < 3) := by
  rcases h : processAttempt sha256 env s qi with r | ⟨r, log⟩ | e
  · rw [processedItem_dup h]
    exact ⟨by show qi.retry_count ≤ 3; omega,
      by intro hst; rcases hst with hst | hst <;> cases hst⟩
  · rw [processedItem_created h]
    exact ⟨by show qi.retry_count ≤ 3; omega,
      by intro hst; rcases hst with hst | hst <;> cases hst⟩
  · rw [processedItem_raised h]
    refine ⟨by simp; omega, ?_⟩
    intro hst
    by_cases hc : qi.retry_count + 1 < 3
    · simpa using hc
    · simp only [if_neg hc] at hst
      rcases hst with hst | hst <;> cases hst

theorem updateItem_eq_map (queue : List QueueItem) (i : Nat) (item2 : QueueItem) :
    updateItem queue i item2 = queue.map (fun q => if q.id == i then item2 else q) := rfl

theorem WF_processNext (sha256 : List Nat → String) (env : ProcEnv) (now : Nat)
    (s : DBState) (qi : QueueItem) (hget : getNextItem s = some qi) (hwf : WF s) :
    WF (processItem sha256 env now s qi) := by
  obtain ⟨hmem, hpend, hretry⟩ := getNextItem_spec hget
  obtain ⟨hrows, hnd⟩ := hwf
  obtain ⟨hq, hnext⟩ := processItem_queue sha256 env now s qi
  have hitem2 := processedItem_clauses sha256 env now s qi hretry
  have hid2 : (processedItem sha256 env now s qi).id = qi.id :=
    processedItem_id sha256 env now s qi
  constructor
  · intro x hx
    rw [hq, updateItem_eq_map, List.mem_map] at hx
    obtain ⟨q, hqm, rfl⟩ := hx
    rw [hnext]
    by_cases hc : q.id == qi.id
    · simp only [hc, if_true]
      have hqid : q.id = qi.id := by
        have := hc
        simp only [beq_iff_eq] at this
        exact this
      refine ⟨hitem2.1, hitem2.2, ?_⟩
      rw [hid2, ← hqid]
      exact (hrows q hqm).2.2
    · simp only [Bool.not_eq_true] at hc
      simp only [hc, Bool.false_eq_true, if_false]
      exact hrows q hqm
  · rw [hq, updateItem_eq_map, List.map_map]
    have heq : ((fun q => q.id) ∘ fun q => if q.id == qi.id then
        processedItem sha256 env now s qi else q) = fun (q : QueueItem) => q.id := by
      funext q
      by_cases hc : q.id == qi.id
      · have hqid : q.id = qi.id := by
          have := hc
          simp only [beq_iff_eq] at this
          exact this
        simp [Function.comp, hc, hid2, hqid]
      · simp only [Bool.not_eq_true] at hc
        simp [Function.comp, hc]
    rw [heq]
    exact hnd

theorem WF_upload (sha256 : List Nat → String) (s : DBState)
    (origFilename filename : String) (content : List Nat) (now : Nat) (hwf : WF s) :
    WF { s with
        queue := s.queue ++
          [uploadQueueItem sha256 origFilename filename content s.next_queue_id now]
        next_queue_id := s.next_queue_id + 1 } := by
  obtain ⟨hrows, hnd⟩ := hwf
  constructor
  · intro qi hqi
    rcases List.mem_append.mp hqi with hqi | hqi
    · obtain ⟨h1, h2, h3⟩ := hrows qi hqi
      refine ⟨h1, h2, ?_⟩
      show qi.id < s.next_queue_id + 1
      omega
    · rcases List.mem_singleton.mp hqi with rfl
      refine ⟨by simp [uploadQueueItem], ?_, ?_⟩
      · intro
        simp [uploadQueueItem]
      · show (uploadQueueItem sha256 origFilename filename content s.next_queue_id now).id
          < s.next_queue_id + 1
        simp [uploadQueueItem]
  · show ((s.queue ++
      [uploadQueueItem sha256 origFilename filename content s.next_queue_id now]).map
        (fun q => q.id)).Nodup
    rw [List.map_append, List.nodup_append]
    refine ⟨hnd, by simp, ?_⟩
    intro x hx
    have hlt : x < s.next_queue_id := by
      rw [List.mem_map] at hx
      obtain ⟨qi, hqi, rfl⟩ := hx
      exact (hrows qi hqi).2.2
    simp only [List.map_cons, List.map_nil, uploadQueueItem]
    intro hy
    rcases List.mem_singleton.mp hy with rfl
    omega

theorem step_master (sha256 : List Nat → String) {s s2 : DBState}
    (hwf : WF s) (hstep : Step sha256 s s2) :
    WF s2 ∧ s.queue.length ≤ s2.queue.length ∧
    ∀ n a b, s.queue.get? n = some a → s2.queue.get? n = some b → evolves a b := by
  cases hstep with
  | add items ovs now =>
    obtain ⟨hwf2, tail, htail, _⟩ := addToQueue_WF ovs now items s hwf
    refine ⟨hwf2, ?_, ?_⟩
    · rw [htail, List.length_append]
      omega
    · intro n a b ha hb
      have hn : n < s.queue.length := by
        rcases List.get?_eq_some.mp ha with ⟨hlt, _⟩
        exact hlt
      rw [htail, List.get?_append hn, ha] at hb
      injection hb with hb
      subst hb
      exact evolves_refl a
  | approve ids =>
    have hnd := hwf.2
    obtain ⟨hq, _⟩ := approveForProcessing_queue s ids hnd
    refine ⟨WF_approve s ids hwf, ?_, ?_⟩
    · rw [hq, List.length_map]
    · intro n a b ha hb
      rw [hq, List.get?_map, ha] at hb
      injection hb with hb
      subst hb
      exact evolves_approveUpdL ids a
  | skip ids now =>
    have hnd := hwf.2
    obtain ⟨hq, _⟩ := skipItems_queue s ids now hnd
    refine ⟨WF_skip s ids now hwf, ?_, ?_⟩
    · rw [hq, List.length_map]
    · intro n a b ha hb
      rw [hq, List.get?_map, ha] at hb
      injection hb with hb
      subst hb
      exact evolves_skipUpdL now ids a
  | upload origFilename filename content now =>
    refine ⟨WF_upload sha256 s origFilename filename content now hwf, ?_, ?_⟩
    · show s.queue.length ≤ (s.queue ++ [_]).length
      rw [List.length_append]
      omega
    · intro n a b ha hb
      have hn : n < s.queue.length := by
        rcases List.get?_eq_some.mp ha with ⟨hlt, _⟩
        exact hlt
      have hb2 : (s.queue ++
          [uploadQueueItem sha256 origFilename filename content s.next_queue_id now]).get? n
          = some b := hb
      rw [List.get?_append hn, ha] at hb2
      injection hb2 with hb2
      subst hb2
      exact evolves_refl a
  | processNext env now qi hget =>
    obtain ⟨hmem, hpend, hretry⟩ := getNextItem_spec hget
    have hnd := hwf.2
    obtain ⟨hq, _⟩ := processItem_queue sha256 env now s qi
    refine ⟨WF_processNext sha256 env now s qi hget hwf, ?_, ?_⟩
    · rw [hq, updateItem_eq_map, List.length_map]
    · intro n a b ha hb
      rw [hq, updateItem_eq_map, List.get?_map, ha] at hb
      injection hb with hb
      subst hb
      by_cases hc : a.id == qi.id
      · have haq : a = qi := by
          have hqid : a.id = qi.id := by
            have := hc
            simp only [beq_iff_eq] at this
            exact this
          exact eq_of_id_nodup hnd (List.get?_mem ha) hmem hqid
        simp only [hc, if_true]
        rw [haq]
        refine ⟨(processedItem_id sha256 env now s qi).symm,
          processedItem_retry_ge sha256 env now s qi, ?_⟩
        intro hfr
        rw [hpend] at hfr
        cases hfr.1
      · simp only [Bool.not_eq_true] at hc
        simp only [hc, Bool.false_eq_true, if_false]
        exact evolves_refl a

/-! ### Claim theorems -/

/-- A stand-in hash function for concrete evaluations (the claims under
study never depend on properties of SHA-256 beyond being a function of the
bytes). -/
def dummySha : List Nat → String :=
  fun bs => toString bs.length

/-- Concrete discovered-and-classified candidate for the C1 evaluation:
`is_audit=true`, `confidence=0.9`, URL not present anywhere. -/
def c1Item : ClassifiedItem :=
  { url := "https://example.gov/audit.pdf"
    title := "State Medicaid Audit"
    source := "example.gov"
    ai_classification :=
      { is_medicaid_audit := true
        confidence := 9/10
        document_type := "audit_report"
        reasoning := "state audit of Medicaid program"
        success := true
        error := none
        provider := some ("openai") } }

/-- C1: the claim (and the comment in `add_to_queue` itself) says a
non-duplicate discovered-and-classified candidate enters the queue with
status `pending_review`; but `add_to_queue` never sets `status` and the
`ScrapingQueue` column default in `models.py` is `'pending'`, so the row
materializes as `pending` — auto-approved past the human-in-the-loop gate.
This theorem evaluates the embedded code at the failing input. -/
theorem C1_add_to_queue_lands_in_pending :
    ((addToQueue [] 0 DBState.empty [c1Item]).1.queue.map (fun q => q.status))
      = [Status.pending] ∧
    ((addToQueue [] 0 DBState.empty [c1Item]).1.queue.map (fun q => q.status))
      ≠ [Status.pendingReview] ∧
    (addToQueue [] 0 DBState.empty [c1Item]).2 = 1 := by
  refine ⟨rfl, ?_, rfl⟩
  decide

/-- C5: the URL-level duplicate check fires exactly on a URL matching an
existing report's source URL or an in-flight queue row
(`pending_review`/`pending`/`downloading`/`processing`); consequently a
candidate whose URL is already a duplicate is not enqueued again by
`add_to_queue`. -/
theorem C5_url_duplicate_check :
    (∀ s url, checkDuplicate s url = true ↔
      ((∃ r ∈ s.reports, r.original_report_source_url = url) ∨
       ∃ q ∈ s.queue, q.url = url ∧
         (q.status = Status.pendingReview ∨ q.status = Status.pending ∨
          q.status = Status.downloading ∨ q.status = Status.processing))) ∧
    (∀ s item ovs now, checkDuplicate s item.url = true →
      addToQueue ovs now s [item] = (s, 0)) := by
  constructor
  · intro s url
    simp only [checkDuplicate, Bool.or_eq_true, List.any_eq_true, Bool.and_eq_true,
      beq_iff_eq, inflightStatus]
    constructor
    · rintro (⟨r, hr, hru⟩ | ⟨q, hq, hqu, hst⟩)
      · exact Or.inl ⟨r, hr, hru⟩
      · refine Or.inr ⟨q, hq, hqu, ?_⟩
        rcases hst with ((h | h) | h) | h <;> tauto
    · rintro (⟨r, hr, hru⟩ | ⟨q, hq, hqu, hst⟩)
      · exact Or.inl ⟨r, hr, hru⟩
      · refine Or.inr ⟨q, hq, hqu, ?_⟩
        rcases hst with h | h | h | h <;> simp [h]
  · intro s item ovs now h
    simp [addToQueue, h]

/-- Concrete witness state for C5: one report carrying the witness URL. -/
def c5Report : Report :=
  { id := 1
    report_title := "Audit of State Medicaid Eligibility"
    audit_organization := "Office of the State Auditor"
    publication_year := 2023
    publication_month := 4
    publication_day := none
    original_report_source_url := "https://example.gov/audit.pdf"
    state := some ("TX")
    audit_scope := none
    original_filename := "audit.pdf"
    file_hash := "aa"
    file_size_bytes := 4
    status := "completed"
    processing_status := "completed"
    findings := []
    recommendations := []
    objectives := []
    keywords := [] }

/-- Concrete witness state for C5. -/
def c5State : DBState :=
  { queue := []
    reports := [c5Report]
    dup_checks := []
    bg_starts := 0
    next_queue_id := 1
    next_report_id := 2 }

/-- Witness for C5: the concrete report URL is flagged as a duplicate and
the re-discovered candidate is not enqueued. -/
theorem C5_url_duplicate_check_witness :
    (checkDuplicate c5State c1Item.url = true ↔
      ((∃ r ∈ c5State.reports, r.original_report_source_url = c1Item.url) ∨
       ∃ q ∈ c5State.queue, q.url = c1Item.url ∧
         (q.status = Status.pendingReview ∨ q.status = Status.pending ∨
          q.status = Status.downloading ∨ q.status = Status.processing))) ∧
    (checkDuplicate c5State c1Item.url = true ∧
      addToQueue [] 0 c5State [c1Item] = (c5State, 0)) :=
  ⟨C5_url_duplicate_check.1 c5State c1Item.url,
   by decide,
   C5_url_duplicate_check.2 c5State c1Item [] 0 (by decide)⟩

/-- C8: the hex string embedded at upload time decodes (by the processor's
`bytes.fromhex`) back to the original bytes, and the `file_hash` recorded
in the metadata is exactly the SHA-256 of those bytes. -/
theorem C8_upload_roundtrip (sha256 : List Nat → String)
    (origFilename filename : String) (content : List Nat) (qid now : Nat)
    (h : ∀ b ∈ content, b < 256) :
    (uploadQueueItem sha256 origFilename filename content qid now).document_metadata.file_content
      = some (bytesToHex content) ∧
    fromHex (bytesToHex content) = some content ∧
    (uploadQueueItem sha256 origFilename filename content qid now).document_metadata.file_hash
      = some (sha256 content) :=
  ⟨rfl, fromHex_bytesToHex h, rfl⟩

/-- Witness for C8 on the four bytes of a PDF magic header. -/
theorem C8_upload_roundtrip_witness :
    (∀ b ∈ [37, 80, 68, 70], b < 256) ∧
    ((uploadQueueItem dummySha ("a.pdf") ("a.pdf") [37, 80, 68, 70] 1 0).document_metadata.file_content
      = some (bytesToHex [37, 80, 68, 70]) ∧
    fromHex (bytesToHex [37, 80, 68, 70]) = some [37, 80, 68, 70] ∧
    (uploadQueueItem dummySha ("a.pdf") ("a.pdf") [37, 80, 68, 70] 1 0).document_metadata.file_hash
      = some (dummySha [37, 80, 68, 70])) :=
  ⟨by decide,
   C8_upload_roundtrip dummySha ("a.pdf") ("a.pdf") [37, 80, 68, 70] 1 0 (by decide)⟩

/-- C4: a freshly downloaded item whose content hash matches an existing
report is routed to the duplicate success path: status `duplicate`,
`report_id` pointing at the existing report, one new `DuplicateCheck` row,
no new report, `retry_count` and `error_message` untouched. -/
theorem C4_hash_duplicate_path (sha256 : List Nat → String) (env : ProcEnv)
    (now : Nat) (s : DBState) (qi : QueueItem) (content : List Nat) (r : Report)
    (hnup : qi.source_domain ≠ "manual_upload")
    (hdl : env.download qi.url = Except.ok content)
    (hfind : findReportByHash s.reports (some (sha256 content)) = some r) :
    (processedItem sha256 env now s qi).status = Status.duplicate ∧
    (processedItem sha256 env now s qi).report_id = some r.id ∧
    (processedItem sha256 env now s qi).retry_count = qi.retry_count ∧
    (processedItem sha256 env now s qi).error_message = qi.error_message ∧
    (processItem sha256 env now s qi).reports = s.reports ∧
    (processItem sha256 env now s qi).dup_checks =
      s.dup_checks ++ [{ queue_item_id := qi.id, existing_report_id := r.id }] := by
  have hb : (qi.source_domain == "manual_upload") = false := by
    simpa using hnup
  have hout : processAttempt sha256 env s qi = ProcOutcome.dup r := by
    simp [processAttempt, hb, hdl, hfind]
  refine ⟨?_, ?_, ?_, ?_, ?_, ?_⟩ <;>
    first
      | (rw [processedItem_dup hout])
      | (simp [processItem, hout])

/-- Remote (non-upload) queue row used in concrete evaluations. -/
def c4Item : QueueItem :=
  { id := 3
    url := "https://example.gov/b.pdf"
    title := "b"
    source_domain := "example.gov"
    document_metadata := {}
    ai_classification := AIClassification.absent
    status := Status.pending
    retry_count := 0
    created_at := 0
    completed_at := none
    error_message := none
    report_id := none
    user_override := false }

/-- Existing report whose `file_hash` collides with the downloaded bytes
under `dummySha`. -/
def c4Report : Report :=
  { c5Report with
      id := 7
      file_hash := "2"
      original_report_source_url := "https://other.gov/x.pdf" }

/-- Witness database for C4. -/
def c4State : DBState :=
  { queue := [c4Item]
    reports := [c4Report]
    dup_checks := []
    bg_starts := 0
    next_queue_id := 4
    next_report_id := 8 }

/-- Download succeeds with two bytes; extraction is never reached. -/
def c4Env : ProcEnv :=
  { download := fun _ => Except.ok [9, 9]
    extractText := fun _ => Except.error ("unused")
    extractData := fun _ _ => Except.error ("unused") }

/-- Witness for C4 at the concrete state: hash match routes to the
duplicate path. -/
theorem C4_hash_duplicate_path_witness :
    (c4Item.source_domain ≠ "manual_upload" ∧
     c4Env.download c4Item.url = Except.ok [9, 9] ∧
     findReportByHash c4State.reports (some (dummySha [9, 9])) = some c4Report) ∧
    ((processedItem dummySha c4Env 9 c4State c4Item).status = Status.duplicate ∧
     (processedItem dummySha c4Env 9 c4State c4Item).report_id = some c4Report.id ∧
     (processItem dummySha c4Env 9 c4State c4Item).reports = c4State.reports) :=
  ⟨⟨by decide, rfl, by decide⟩,
   by
    have h := C4_hash_duplicate_path dummySha c4Env 9 c4State c4Item [9, 9] c4Report
      (by decide) rfl (by decide)
    exact ⟨h.1, h.2.1, h.2.2.2.2.1⟩⟩

/-! ### C2: `completed_at` versus terminal states -/

/-- Manual-upload queue row with no embedded content, so processing raises
the `ValueError` and the retry path fires. -/
def c2Item : QueueItem :=
  { id := 1
    url := "upload://deadbeef"
    title := "r.pdf"
    source_domain := "manual_upload"
    document_metadata := {}
    ai_classification := AIClassification.absent
    status := Status.pending
    retry_count := 0
    created_at := 0
    completed_at := none
    error_message := none
    report_id := none
    user_override := false }

/-- Witness database for C2. -/
def c2State : DBState :=
  { queue := [c2Item]
    reports := []
    dup_checks := []
    bg_starts := 0
    next_queue_id := 2
    next_report_id := 1 }

/-- Environment in which every external call fails. -/
def failEnv : ProcEnv :=
  { download := fun _ => Except.error ("download failed")
    extractText := fun _ => Except.error ("text extraction failed")
    extractData := fun _ _ => Except.error ("AI extraction failed") }

/-- C2 counterexample: after one failing `_process_item` pass the row is
back in the non-terminal status `pending` for retry, yet the `finally`
block has stamped `completed_at` — so "`completed_at` set iff terminal"
fails, exactly on the failed-then-reverted item the claim singles out. -/
theorem C2_counterexample_pending_with_completed_at :
    ∃ qi ∈ (processItem dummySha failEnv 5 c2State c2Item).queue,
      qi.status = Status.pending ∧ terminal qi = false ∧ qi.completed_at ≠ none ∧
      qi.retry_count = 1 := by
  decide

/-- Rows surviving `approve_for_processing` are original rows or rows just
set to `pending`. -/
theorem approveList_mem (ids : List Nat) :
    ∀ (queue : List QueueItem), ∀ qi ∈ (approveList queue ids).1,
      qi ∈ queue ∨ qi.status = Status.pending := by
  induction ids with
  | nil =>
    intro queue qi hqi
    exact Or.inl hqi
  | cons i rest ih =>
    intro queue qi hqi
    have hone : ∀ (q2 : List QueueItem), ∀ x ∈ (approveOne q2 i).1,
        x ∈ q2 ∨ x.status = Status.pending := by
      intro q2
      induction q2 with
      | nil => intro x hx; cases hx
      | cons q t ih2 =>
        intro x hx
        by_cases hc : (q.id == i && q.status == Status.pendingReview) = true
        · simp only [approveOne, hc, if_true] at hx
          rcases List.mem_cons.mp hx with rfl | hx
          · exact Or.inr rfl
          · exact Or.inl (List.mem_cons_of_mem q hx)
        · simp only [approveOne, hc, Bool.false_eq_true, if_false] at hx
          rcases List.mem_cons.mp hx with rfl | hx
          · exact Or.inl (List.mem_cons_self x t)
          · rcases ih2 x hx with hm | hs
            · exact Or.inl (List.mem_cons_of_mem q hm)
            · exact Or.inr hs
    simp only [approveList] at hqi
    rcases ih (approveOne queue i).1 qi hqi with hm | hs
    · exact hone queue qi hm
    · exact Or.inr hs

/-- Rows surviving `skip_items` are original rows or rows just skipped and
stamped with `completed_at = now`. -/
theorem skipList_mem (now : Nat) (ids : List Nat) :
    ∀ (queue : List QueueItem), ∀ qi ∈ (skipList now queue ids).1,
      qi ∈ queue ∨ (qi.status = Status.skipped ∧ qi.completed_at = some now) := by
  induction ids with
  | nil =>
    intro queue qi hqi
    exact Or.inl hqi
  | cons i rest ih =>
    intro queue qi hqi
    have hone : ∀ (q2 : List QueueItem), ∀ x ∈ (skipOne now q2 i).1,
        x ∈ q2 ∨ (x.status = Status.skipped ∧ x.completed_at = some now) := by
      intro q2
      induction q2 with
      | nil => intro x hx; cases hx
      | cons q t ih2 =>
        intro x hx
        by_cases hc : (q.id == i && q.status == Status.pendingReview) = true
        · simp only [skipOne, hc, if_true] at hx
          rcases List.mem_cons.mp hx with rfl | hx
          · exact Or.inr ⟨rfl, rfl⟩
          · exact Or.inl (List.mem_cons_of_mem q hx)
        · simp only [skipOne, hc, Bool.false_eq_true, if_false] at hx
          rcases List.mem_cons.mp hx with rfl | hx
          · exact Or.inl (List.mem_cons_self x t)
          · rcases ih2 x hx with hm | hs
            · exact Or.inl (List.mem_cons_of_mem q hm)
            · exact Or.inr hs
    simp only [skipList] at hqi
    rcases ih (skipOne now queue i).1 qi hqi with hm | hs
    · exact hone queue qi hm
    · exact Or.inr hs

/-- Terminal rows carry `completed_at` — the direction of C2 the code
does satisfy. -/
def TInv (s : DBState) : Prop :=
  ∀ qi ∈ s.queue, terminal qi = true → qi.completed_at ≠ none

theorem terminal_false_of_pending {qi : QueueItem}
    (h : qi.status = Status.pending) : terminal qi = false := by
  simp [terminal, h]

theorem terminal_false_of_pendingReview {qi : QueueItem}
    (h : qi.status = Status.pendingReview) : terminal qi = false := by
  simp [terminal, h]

theorem addToQueue_shape (ovs : List (String × Bool)) (now : Nat) :
    ∀ (items : List ClassifiedItem) (s : DBState), ∃ tail,
      (addToQueue ovs now s items).1.queue = s.queue ++ tail ∧
      ∀ qi ∈ tail, qi.status = Status.pending := by
  intro items
  induction items with
  | nil =>
    intro s
    exact ⟨[], by simp [addToQueue], by simp⟩
  | cons item rest ih =>
    intro s
    by_cases hdup : checkDuplicate s item.url = true
    · obtain ⟨tail, htail, hprops⟩ := ih s
      exact ⟨tail, by simpa [addToQueue, hdup] using htail, hprops⟩
    · rw [Bool.not_eq_true] at hdup
      obtain ⟨tail, htail, hprops⟩ := ih { s with
        queue := s.queue ++ [enqueuedItem item ovs s.next_queue_id now]
        next_queue_id := s.next_queue_id + 1 }
      refine ⟨enqueuedItem item ovs s.next_queue_id now :: tail, ?_, ?_⟩
      · have : (addToQueue ovs now s (item :: rest)).1 =
            (addToQueue ovs now { s with
              queue := s.queue ++ [enqueuedItem item ovs s.next_queue_id now]
              next_queue_id := s.next_queue_id + 1 } rest).1 := by
          simp [addToQueue, hdup]
        rw [this, htail]
        show (s.queue ++ [enqueuedItem item ovs s.next_queue_id now]) ++ tail = _
        simp
      · intro qi hqi
        rcases List.mem_cons.mp hqi with rfl | hqi
        · simp [enqueuedItem]
        · exact hprops qi hqi

theorem approveForProcessing_queue_raw (s : DBState) (ids : List Nat) :
    (approveForProcessing s ids).1.queue = (approveList s.queue ids).1 := by
  simp only [approveForProcessing]
  split <;> rfl

theorem skipItems_queue_raw (s : DBState) (ids : List Nat) (now : Nat) :
    (skipItems s ids now).1.queue = (skipList now s.queue ids).1 := rfl

theorem TInv_step (sha256 : List Nat → String) {s s2 : DBState}
    (hinv : TInv s) (hstep : Step sha256 s s2) : TInv s2 := by
  cases hstep with
  | add items ovs now =>
    obtain ⟨tail, htail, hprops⟩ := addToQueue_shape ovs now items s
    intro qi hqi hterm
    rw [htail] at hqi
    rcases List.mem_append.mp hqi with hqi | hqi
    · exact hinv qi hqi hterm
    · rw [terminal_false_of_pending (hprops qi hqi)] at hterm
      cases hterm
  | approve ids =>
    intro qi hqi hterm
    rw [approveForProcessing_queue_raw] at hqi
    rcases approveList_mem ids s.queue qi hqi with hm | hs
    · exact hinv qi hm hterm
    · rw [terminal_false_of_pending hs] at hterm
      cases hterm
  | skip ids now =>
    intro qi hqi hterm
    rw [skipItems_queue_raw] at hqi
    rcases skipList_mem now ids s.queue qi hqi with hm | hs
    · exact hinv qi hm hterm
    · rw [hs.2]
      simp
  | upload origFilename filename content now =>
    intro qi hqi hterm
    rcases List.mem_append.mp hqi with hqi | hqi
    · exact hinv qi hqi hterm
    · rcases List.mem_singleton.mp hqi with rfl
      rw [terminal_false_of_pendingReview rfl] at hterm
      cases hterm
  | processNext env now qi hget =>
    intro x hx hterm
    obtain ⟨hq, _⟩ := processItem_queue sha256 env now s qi
    rw [hq, updateItem_eq_map, List.mem_map] at hx
    obtain ⟨q, hqm, rfl⟩ := hx
    by_cases hc : (q.id == qi.id) = true
    · simp only [hc, if_true]
      rw [processedItem_completed_at]
      simp
    · simp only [hc, Bool.false_eq_true, if_false]
      simp only [hc, Bool.false_eq_true, if_false] at hterm
      exact hinv q hqm hterm

/-- C2 as amended: `completed_at` is stamped unconditionally at the end of
`_process_item` (also on the failed-then-`pending` retry path) and by
`skip_items` on the rows it skips; every step preserves the one direction
that does hold, "terminal implies `completed_at` set".  The converse
direction of the original claim is refuted by the counterexample. -/
theorem C2_amended_completed_at_semantics :
    (∀ (sha256 : List Nat → String) (env : ProcEnv) (now : Nat)
        (s : DBState) (qi : QueueItem),
      (processedItem sha256 env now s qi).completed_at = some now) ∧
    (∀ (s : DBState) (ids : List Nat) (now : Nat),
      ∀ qi ∈ (skipItems s ids now).1.queue,
        qi ∈ s.queue ∨ (qi.status = Status.skipped ∧ qi.completed_at = some now)) ∧
    (∀ (sha256 : List Nat → String) (s s2 : DBState),
      TInv s → Step sha256 s s2 → TInv s2) := by
  refine ⟨processedItem_completed_at, ?_, fun sha256 s s2 => TInv_step sha256⟩
  intro s ids now qi hqi
  rw [skipItems_queue_raw] at hqi
  exact skipList_mem now ids s.queue qi hqi

/-- Witness for the amended C2 at concrete inputs: the failing pass stamps
`completed_at = 5`, a concrete skip stamps the row, and a concrete step
preserves `TInv`. -/
theorem C2_amended_completed_at_semantics_witness :
    ((processedItem dummySha failEnv 5 c2State c2Item).completed_at = some 5) ∧
    (∀ qi ∈ (skipItems c2State [1] 7).1.queue,
      qi ∈ c2State.queue ∨ (qi.status = Status.skipped ∧ qi.completed_at = some 7)) ∧
    (TInv c2State ∧ TInv (skipItems c2State [1] 7).1) := by
  refine ⟨C2_amended_completed_at_semantics.1 dummySha failEnv 5 c2State c2Item,
    C2_amended_completed_at_semantics.2.1 c2State [1] 7, ?_, ?_⟩
  · intro qi hqi hterm
    rcases List.mem_singleton.mp hqi with rfl
    cases hterm
  · refine C2_amended_completed_at_semantics.2.2 dummySha c2State _ ?_
      (Step.skip c2State [1] 7)
    intro qi hqi hterm
    rcases List.mem_singleton.mp hqi with rfl
    cases hterm

/-! ### C3: retry counter semantics -/

/-- C3: across any queue-table step from a well-formed state, well-formedness
(including the cap `retry_count ≤ 3`) is preserved, rows are never deleted,
each surviving row keeps its id and a non-decreasing `retry_count`, and a
row that is `failed` at the cap is frozen verbatim; a processing exception
bumps `retry_count` by exactly one and reverts the status to `pending`
exactly when the new count is still under 3; and a row at the cap is never
returned by `_get_next_item`. -/
theorem C3_retry_semantics :
    (∀ (sha256 : List Nat → String) (s s2 : DBState),
      WF s → Step sha256 s s2 →
      WF s2 ∧ s.queue.length ≤ s2.queue.length ∧
      ∀ n a b, s.queue.get? n = some a → s2.queue.get? n = some b →
        a.id = b.id ∧ a.retry_count ≤ b.retry_count ∧
        (a.status = Status.failed ∧ a.retry_count = 3 → b = a)) ∧
    (∀ (sha256 : List Nat → String) (env : ProcEnv) (now : Nat)
        (s : DBState) (qi : QueueItem) (e : String),
      processAttempt sha256 env s qi = ProcOutcome.raised e →
      (processedItem sha256 env now s qi).retry_count = qi.retry_count + 1 ∧
      (processedItem sha256 env now s qi).status =
        (if qi.retry_count + 1 < 3 then Status.pending else Status.failed)) ∧
    (∀ (s : DBState) (qi : QueueItem), qi.retry_count = 3 →
      getNextItem s ≠ some qi) := by
  refine ⟨?_, ?_, ?_⟩
  · intro sha256 s s2 hwf hstep
    exact step_master sha256 hwf hstep
  · intro sha256 env now s qi e h
    rw [processedItem_raised h]
    exact ⟨rfl, rfl⟩
  · intro s qi h3 hcon
    have := (getNextItem_spec hcon).2.2
    omega

/-- A row frozen at the retry cap, used as concrete input. -/
def c3FrozenItem : QueueItem :=
  { c2Item with
      id := 6
      url := "upload://frozen"
      status := Status.failed
      retry_count := 3 }

/-- Witness for C3 at concrete inputs: a skip step from the well-formed
concrete state, one failing processing pass, and the frozen row never being
selected. -/
theorem C3_retry_semantics_witness :
    (WF c2State ∧ WF (skipItems c2State [] 0).1) ∧
    (processAttempt dummySha failEnv c2State c2Item =
        ProcOutcome.raised ("No file content found in uploaded item metadata") ∧
      (processedItem dummySha failEnv 5 c2State c2Item).retry_count = 1 ∧
      (processedItem dummySha failEnv 5 c2State c2Item).status = Status.pending) ∧
    (c3FrozenItem.retry_count = 3 ∧ getNextItem c2State ≠ some c3FrozenItem) := by
  have hwf : WF c2State := by
    constructor
    · intro qi hqi
      rcases List.mem_singleton.mp hqi with rfl
      exact ⟨by decide, fun _ => by decide, by decide⟩
    · decide
  have hattempt : processAttempt dummySha failEnv c2State c2Item =
      ProcOutcome.raised ("No file content found in uploaded item metadata") := by
    decide
  refine ⟨⟨hwf, ?_⟩, ⟨hattempt, ?_, ?_⟩, rfl, ?_⟩
  · exact (C3_retry_semantics.1 dummySha c2State _ hwf (Step.skip c2State [] 0)).1
  · exact (C3_retry_semantics.2.1 dummySha failEnv 5 c2State c2Item _ hattempt).1
  · exact (C3_retry_semantics.2.1 dummySha failEnv 5 c2State c2Item _ hattempt).2
  · exact C3_retry_semantics.2.2 c2State c3FrozenItem rfl

/-! ### C7: batch approval -/

/-- C7: with distinct queue ids, `approve_for_processing` rewrites the
queue pointwise — exactly the rows whose id is listed *and* whose status is
`pending_review` move to `pending` (`approveUpdL`), every other row is
untouched — the returned count is the number of such rows (duplicate ids
are not double-counted), background processing is spawned exactly once if
the count is positive and never otherwise, and no other table is touched. -/
theorem C7_batch_approval (s : DBState) (ids : List Nat)
    (hnd : (s.queue.map (fun q => q.id)).Nodup) :
    (approveForProcessing s ids).1.queue = s.queue.map (approveUpdL ids) ∧
    (approveForProcessing s ids).2 = s.queue.countP (reviewSel ids) ∧
    (approveForProcessing s ids).1.bg_starts =
      s.bg_starts + (if 0 < s.queue.countP (reviewSel ids) then 1 else 0) ∧
    (approveForProcessing s ids).1.reports = s.reports ∧
    (approveForProcessing s ids).1.dup_checks = s.dup_checks := by
  simp only [approveForProcessing, approveList_spec ids s.queue hnd]
  by_cases hc : 0 < s.queue.countP (reviewSel ids) <;> simp [hc]

/-- A `pending_review` row for the C7 witness. -/
def c7ItemReview : QueueItem :=
  { c2Item with
      id := 11
      url := "https://example.gov/r1.pdf"
      source_domain := "example.gov"
      status := Status.pendingReview }

/-- A row already `pending` for the C7 witness. -/
def c7ItemPending : QueueItem :=
  { c2Item with
      id := 12
      url := "https://example.gov/r2.pdf"
      source_domain := "example.gov"
      status := Status.pending }

/-- Witness database for C7. -/
def c7State : DBState :=
  { queue := [c7ItemReview, c7ItemPending]
    reports := []
    dup_checks := []
    bg_starts := 0
    next_queue_id := 13
    next_report_id := 1 }

/-- Witness for C7: approving `[11, 12, 11]` (id 12 already `pending`, id 11
listed twice) transitions only row 11, counts it once, and spawns
background processing exactly once. -/
theorem C7_batch_approval_witness :
    ((c7State.queue.map (fun q => q.id)).Nodup) ∧
    ((approveForProcessing c7State [11, 12, 11]).1.queue
        = c7State.queue.map (approveUpdL [11, 12, 11]) ∧
      (approveForProcessing c7State [11, 12, 11]).2 = 1 ∧
      (approveForProcessing c7State [11, 12, 11]).1.bg_starts = 1) := by
  have h := C7_batch_approval c7State [11, 12, 11] (by decide)
  refine ⟨by decide, h.1, ?_, ?_⟩
  · rw [h.2.1]
    decide
  · rw [h.2.2.1]
    decide

/-! ### C6: classifier error containment -/

/-- One provider attempt "failed" in the source's sense: it raised, or it
returned a result with `success=False`. -/
def attemptFailed (x : Except String ClassificationResult) : Prop :=
  match x with
  | Except.ok r => r.success = false
  | Except.error _ => True

theorem retryLoop_all_failed
    (call : Nat → Except String ClassificationResult) :
    ∀ (l : List Nat) (lastError : Option String),
      (∀ i ∈ l, attemptFailed (call i)) →
      ∃ le, retryLoop call l lastError = Sum.inr le := by
  intro l
  induction l with
  | nil => intro lastError _; exact ⟨lastError, rfl⟩
  | cons i rest ih =>
    intro lastError hall
    have hi := hall i (List.mem_cons_self i rest)
    have hrest : ∀ j ∈ rest, attemptFailed (call j) :=
      fun j hj => hall j (List.mem_cons_of_mem i hj)
    simp only [retryLoop]
    cases hc : call i with
    | ok r =>
      have hfail : r.success = false := by
        rw [hc] at hi
        exact hi
      have hred : (match Except.ok r with
          | Except.ok r =>
            if r.success = true then Sum.inl r else retryLoop call rest r.error
          | Except.error e => retryLoop call rest (some e)) =
          retryLoop call rest r.error := by
        simp [hfail]
      rw [hred]
      exact ih r.error hrest
    | error e => exact ih (some e) hrest

theorem chunksAux_flatten {α : Type} (n : Nat) (hn : 0 < n) :
    ∀ (fuel : Nat) (l : List α), l.length ≤ fuel →
      (chunksAux n fuel l).flatten = l := by
  intro fuel
  induction fuel with
  | zero =>
    intro l hl
    have : l = [] := List.length_eq_zero.mp (Nat.le_zero.mp hl)
    subst this
    rfl
  | succ fuel ih =>
    intro l hl
    cases l with
    | nil => rfl
    | cons x xs =>
      show ((x :: xs).take n :: chunksAux n fuel ((x :: xs).drop n)).flatten = x :: xs
      rw [List.flatten_cons]
      rw [ih ((x :: xs).drop n) ?_, List.take_append_drop]
      rw [List.length_drop]
      simp only [List.length_cons] at hl ⊢
      omega

theorem chunks_flatten {α : Type} (n : Nat) (hn : 0 < n) (l : List α) :
    (chunks n l).flatten = l :=
  chunksAux_flatten n hn l.length l (Nat.le_refl _)

theorem classifyBatch_eq_map (batchSize : Nat) (providerName : String)
    (call : String → String → String → Except String ClassificationResult)
    (searchResults : List PdfResult) (hn : 0 < batchSize) :
    classifyBatch batchSize providerName call searchResults =
      searchResults.map (classifyOne providerName call) := by
  unfold classifyBatch
  rw [← List.map_flatten, chunks_flatten batchSize hn]

/-- C6: when every retry attempt of one classification fails, the wrapper
returns (never raises) a result with `success=false`, a populated `error`,
`is_audit=false` and `confidence=0`; and batch classification yields exactly
one record per input item, pointwise given by `classifyOne`, whose
`Except.error` branch shows a raising item degrading to a
failed-classification record for that item only. -/
theorem C6_classifier_error_containment :
    (∀ (retryAttempts : Nat) (providerName : String)
        (call : Nat → Except String ClassificationResult),
      (∀ i, i < retryAttempts → attemptFailed (call i)) →
      (classifyWithRetry retryAttempts providerName call).success = false ∧
      (classifyWithRetry retryAttempts providerName call).error ≠ none ∧
      (classifyWithRetry retryAttempts providerName call).is_medicaid_audit = false ∧
      (classifyWithRetry retryAttempts providerName call).confidence = 0) ∧
    (∀ (batchSize : Nat) (providerName : String)
        (call : String → String → String → Except String ClassificationResult)
        (searchResults : List PdfResult), 0 < batchSize →
      (classifyBatch batchSize providerName call searchResults).length
          = searchResults.length ∧
      (∀ n r, searchResults.get? n = some r →
        (classifyBatch batchSize providerName call searchResults).get? n
          = some (classifyOne providerName call r)) ∧
      (∀ r e, call r.title r.snippet r.url = Except.error e →
        classifyOne providerName call r =
          { result := r, ai_classification := failedBatchEntry e providerName })) := by
  constructor
  · intro retryAttempts providerName call hall
    have hfails : ∀ i ∈ List.range retryAttempts, attemptFailed (call i) := by
      intro i hi
      exact hall i (List.mem_range.mp hi)
    obtain ⟨le, hle⟩ := retryLoop_all_failed call (List.range retryAttempts) none hfails
    unfold classifyWithRetry
    rw [hle]
    refine ⟨rfl, ?_, rfl, rfl⟩
    simp [failedResult]
  · intro batchSize providerName call searchResults hn
    rw [classifyBatch_eq_map batchSize providerName call searchResults hn]
    refine ⟨List.length_map searchResults _, ?_, ?_⟩
    · intro n r hr
      rw [List.get?_map, hr]
      rfl
    · intro r e he
      simp [classifyOne, he]

/-- A provider call that raises on the first attempt and answers
unsuccessfully on the second. -/
def c6Call : Nat → Except String ClassificationResult :=
  fun i =>
    if i = 0 then Except.error ("rate limited")
    else Except.ok
      { is_medicaid_audit := false
        confidence := 0
        document_type := "unknown"
        reasoning := "empty response"
        success := false
        error := some ("Empty response from model")
        provider := some ("OpenAI") }

/-- A batch call raising exactly on one URL. -/
def c6BatchCall : String → String → String → Except String ClassificationResult :=
  fun _ _ url =>
    if url = "https://example.gov/raise.pdf" then Except.error ("timeout")
    else Except.ok
      { is_medicaid_audit := true
        confidence := 4/5
        document_type := "audit_report"
        reasoning := "looks like an audit"
        success := true
        error := none
        provider := some ("OpenAI") }

/-- Two concrete search results, one of which makes the call raise. -/
def c6Results : List PdfResult :=
  [{ title := "Medicaid Audit 1"
     url := "https://example.gov/ok.pdf"
     snippet := "audit"
     source := "example.gov"
     mime_type := "application/pdf"
     file_format := "PDF"
     formatted_url := "https://example.gov/ok.pdf"
     metadata := {}
     thumbnail_url := none },
   { title := "Medicaid Audit 2"
     url := "https://example.gov/raise.pdf"
     snippet := "audit"
     source := "example.gov"
     mime_type := "application/pdf"
     file_format := "PDF"
     formatted_url := "https://example.gov/raise.pdf"
     metadata := {}
     thumbnail_url := none }]

/-- Witness for C6: both hypotheses hold at the concrete inputs and the
conclusions evaluate: every attempt of `c6Call` fails and the retry wrapper
degrades; the two-item batch (batch size 5) returns two records with the
raising item degraded in place. -/
theorem C6_classifier_error_containment_witness :
    ((∀ i, i < 2 → attemptFailed (c6Call i)) ∧
      (classifyWithRetry 2 ("OpenAI") c6Call).success = false ∧
      (classifyWithRetry 2 ("OpenAI") c6Call).is_medicaid_audit = false) ∧
    ((0 : Nat) < 5 ∧
      (classifyBatch 5 ("OpenAI") c6BatchCall c6Results).length = c6Results.length) := by
  have hall : ∀ i, i < 2 → attemptFailed (c6Call i) := by
    intro i hi
    interval_cases i <;> simp [c6Call, attemptFailed]
  have h1 := C6_classifier_error_containment.1 2 ("OpenAI") c6Call hall
  have h2 := C6_classifier_error_containment.2 5 ("OpenAI") c6BatchCall c6Results
    (by decide)
  exact ⟨⟨hall, h1.1, h1.2.2.1⟩, by decide, h2.1⟩

/-! ### C9: search transport errors -/

/-- The secret API key of the C9 counterexample. -/
def c9Key : String := "SECRET-KEY-123"

/-- Text of the transport error; the `googleapiclient` `HttpError` string
embeds the request URL, key parameter included. -/
def c9ErrText : String :=
  "HttpError 403 requesting https://host/customsearch/v1?key=SECRET-KEY-123 Forbidden"

/-- Environment whose first page fetch raises that error. -/
def c9Env : SearchEnv :=
  { fetch := fun _ _ => Except.error { text := c9ErrText } }

/-- C9 counterexample: the `except HttpError` handler redacts the key only
in the copy it prints to the console and then re-raises the *original*
exception, so the error reported upward can contain the key verbatim —
refuting "key material never appears in the error text reported upward". -/
theorem C9_counterexample_key_propagates :
    search c9Env 50 = Except.error (SearchExn.http { text := c9ErrText }) ∧
    containsSub (c9Key.data) (c9ErrText.data) = true := by
  constructor
  · rfl
  · decide

/-- Any `HttpError` the pagination loop returns — from any page, after any
amount of accumulation — is verbatim the error of some fetch. -/
theorem searchGo_http_error (env : SearchEnv) (maxResults : Nat) :
    ∀ (idxs : List Nat) (results : List CSEItem) (pdfs : List PdfResult)
      (e : HttpErr),
      searchGo env maxResults idxs results pdfs
        = Except.error (SearchExn.http e) →
      ∃ start num, env.fetch start num = Except.error e := by
  intro idxs
  induction idxs with
  | nil =>
    intro results pdfs e h
    simp [searchGo] at h
  | cons start rest ih =>
    intro results pdfs e h
    cases hf : env.fetch start (min 10 (maxResults - results.length)) with
    | error e2 =>
      refine ⟨start, min 10 (maxResults - results.length), ?_⟩
      simp only [searchGo, hf] at h
      have he : e2 = e := by
        injection h with h2
        injection h2 with h3
      rw [hf, he]
    | ok resp =>
      simp only [searchGo, hf] at h
      cases hit : resp.items with
      | none =>
        simp only [hit] at h
        cases h
      | some items =>
        simp only [hit] at h
        cases hpi : processItems items with
        | error msg =>
          simp only [hpi] at h
          simp at h
        | ok newPdfs =>
          simp only [hpi] at h
          by_cases h1 : maxResults ≤ (pdfs ++ newPdfs).length
          · rw [if_pos h1] at h
            cases h
          · rw [if_neg h1] at h
            by_cases h2 : items.length < 10
            · rw [if_pos h2] at h
              cases h
            · rw [if_neg h2] at h
              exact ih (results ++ items) (pdfs ++ newPdfs) e h

/-- C9 as amended: `search` is exactly the pagination loop run from empty
accumulators; a transport error at *any* point of the loop — also
mid-pagination, with raw items and PDF results already accumulated —
aborts the whole search at once, discarding the partial accumulation and
propagating the wrapped original exception; conversely every `HttpError`
the search reports upward is verbatim some fetch's error (the key
redaction only touches the console-logged copy, never the propagated
exception). -/
theorem C9_amended_transport_error_propagates :
    (∀ (env : SearchEnv) (maxResults : Nat),
      search env maxResults
        = searchGo env maxResults (startIndices maxResults) [] []) ∧
    (∀ (env : SearchEnv) (maxResults start : Nat) (rest : List Nat)
        (results : List CSEItem) (pdfResults : List PdfResult) (e : HttpErr),
      env.fetch start (min 10 (maxResults - results.length)) = Except.error e →
      searchGo env maxResults (start :: rest) results pdfResults
        = Except.error (SearchExn.http e)) ∧
    (∀ (env : SearchEnv) (maxResults : Nat) (e : HttpErr),
      search env maxResults = Except.error (SearchExn.http e) →
      ∃ start num, env.fetch start num = Except.error e) := by
  refine ⟨fun env maxResults => rfl, ?_, ?_⟩
  · intro env maxResults start rest results pdfResults e hf
    simp [searchGo, hf]
  · intro env maxResults e h
    exact searchGo_http_error env maxResults (startIndices maxResults) [] [] e h

/-- A raw CSE item standing in for an already-fetched first page. -/
def c9PrevItem : CSEItem :=
  { link := "https://example.gov/prev.pdf" }

/-- A PDF result standing in for output already accumulated from earlier
pages. -/
def c9PrevPdf : PdfResult :=
  { title := "Medicaid Audit prev"
    url := "https://example.gov/prev.pdf"
    snippet := "audit"
    source := "example.gov"
    mime_type := "application/pdf"
    file_format := "PDF"
    formatted_url := "https://example.gov/prev.pdf"
    metadata := {}
    thumbnail_url := none }

/-- Witness for the amended C9: the failing environment aborts both at the
first page of a real `search` run and mid-pagination with non-empty
accumulators (the accumulated partial results are discarded), and the
propagated error is verbatim some fetch's error. -/
theorem C9_amended_transport_error_propagates_witness :
    (search c9Env 50
        = searchGo c9Env 50 (startIndices 50) [] []) ∧
    (c9Env.fetch 21 (min 10 (50 - ([c9PrevItem] : List CSEItem).length))
        = Except.error { text := c9ErrText } ∧
      searchGo c9Env 50 (21 :: [31, 41]) [c9PrevItem] [c9PrevPdf]
        = Except.error (SearchExn.http { text := c9ErrText })) ∧
    (search c9Env 50 = Except.error (SearchExn.http { text := c9ErrText }) ∧
      ∃ start num, c9Env.fetch start num
        = Except.error { text := c9ErrText }) :=
  ⟨C9_amended_transport_error_propagates.1 c9Env 50,
   ⟨rfl,
    C9_amended_transport_error_propagates.2.1 c9Env 50 21 [31, 41]
      [c9PrevItem] [c9PrevPdf] { text := c9ErrText } rfl⟩,
   rfl,
   C9_amended_transport_error_propagates.2.2 c9Env 50 { text := c9ErrText } rfl⟩

/-! ### C10: which hash the processor uses for uploads -/

end MedicaidMiner
